import Mathlib

/-!
Verification development for the TrendTrackingForHK repository.

The repository contains three Python backtesting scripts:
- `baba_rbreaker_simple.py` (pivot / R-Breaker variant, namespace `RB` below),
- `intraday_reversal_strategy.py` (drop-then-reversal variant, namespace `ID`),
- `small_cap_breakout.py` (volume-surge breakout variant, namespace `SC`).

Money amounts and prices are modelled as exact rationals (`ℚ`); Python's
`int(x)` truncation toward zero and integer floor division `//` are modelled
explicitly.  Bar timestamps are modelled as minutes-of-day (`ℕ`); trading
dates as day counters (`ℤ`).  The parts of the scripts that only fetch,
cache, print, or export data are outside the claims and are not modelled.
-/

/-- Python `int(x)` applied to a float/rational: truncation toward zero. -/
def pyInt (x : ℚ) : ℤ := if 0 ≤ x then ⌊x⌋ else -⌊-x⌋

/-- Python integer floor division `n // 100` followed by nothing: `⌊n / d⌋`
for integer `n` and positive integer `d` (Python `//` floors). -/
def pyFloorDiv (n d : ℤ) : ℤ := ⌊(n : ℚ) / (d : ℚ)⌋

namespace RB

/-- `StrategyConfig.commission_per_share` of `baba_rbreaker_simple.py`:
0.01 USD per share. -/
def commission_per_share : ℚ := 1 / 100

/-- The six R-Breaker price levels computed by
`RBreakerStrategy.calculate_rbreaker_levels`. -/
structure Levels where
  bbreak : ℚ
  ssetup : ℚ
  senter : ℚ
  benter : ℚ
  bsetup : ℚ
  sbreak : ℚ
deriving DecidableEq, Repr

/-- `RBreakerStrategy.calculate_rbreaker_levels`: pivot point and the six
levels, as functions of the coefficients `f1..f5` (fields of
`StrategyConfig`) and the previous day's high/low/close. -/
def calculate_rbreaker_levels (f1 f2 f3 f4 f5 : ℚ)
    (prev_high prev_low prev_close : ℚ) : Levels :=
  let pivot := (prev_high + prev_low + prev_close) / 3
  { bbreak := prev_high + f1 * (prev_close - prev_low)
    ssetup := pivot + f2 * (prev_high - prev_low)
    senter := (1 + f3) * pivot - f3 * prev_low
    benter := (1 + f5) * pivot - f5 * prev_high
    bsetup := pivot - f4 * (prev_high - prev_low)
    sbreak := prev_low - f1 * (prev_high - prev_close) }

/-- Trade direction passed to `execute_trade` (the `signal` string
`"BUY"`/`"SELL"`/`"HOLD"`). -/
inductive Action where
  | buy
  | sell
  | hold
deriving DecidableEq, Repr

/-- The `reason` strings produced by `check_trading_signal` and
`run_backtest` of `baba_rbreaker_simple.py`.  `forcedLiquidation` is the
reason passed at the end of `run_backtest` when a position is still open. -/
inductive Reason where
  | breakoutBuy
  | breakoutSell
  | reversalSell
  | reversalBuy
  | stopHit
  | timeoutClose
  | cooldown
  | forcedLiquidation
deriving DecidableEq, Repr

/-- The `Trade` dataclass of `baba_rbreaker_simple.py` (time/symbol fields,
which no claim mentions, are dropped; `hold_minutes` likewise). -/
structure Trade where
  action : Action
  price : ℚ
  quantity : ℤ
  amount : ℚ
  reason : Reason
  pnl : ℚ
  pnl_percent : ℚ
  commission : ℚ
deriving DecidableEq, Repr

/-- The mutable strategy state used by `RBreakerStrategy.execute_trade`:
`current_capital`, `total_commission`, `position` (signed share count),
`position_price` and the append-only `trades` list. -/
structure State where
  current_capital : ℚ
  total_commission : ℚ
  position : ℤ
  position_price : ℚ
  trades : List Trade
deriving DecidableEq, Repr

/-- `RBreakerStrategy.execute_trade`.  A `BUY` with a short position closes
the short (crediting margin plus pnl), a `BUY` while flat opens a full-
capital long (silently skipped when the affordable quantity is not
positive), and a `BUY` while long falls through the `position <= 0` guard
and records a zero-quantity trade.  `SELL` is the mirror image.  Times and
the cooldown bookkeeping (`last_trade_time`) are not modelled; no claim
mentions them. -/
def execute_trade (signal : Action) (price : ℚ) (reason : Reason)
    (st : State) : State :=
  match signal with
  | .hold => st
  | .buy =>
    if st.position < 0 then
      -- close short: credit original margin plus pnl
      let q : ℤ := -st.position
      let amount := (q : ℚ) * price
      let commission := (q : ℚ) * commission_per_share
      let pnl := (st.position_price - price) * (q : ℚ) - commission
      let pnl_percent := pnl / (st.position_price * (q : ℚ)) * 100
      let original_margin := st.position_price * (q : ℚ)
      { current_capital := st.current_capital + original_margin + pnl
        total_commission := st.total_commission + commission
        position := 0
        position_price := 0
        trades := st.trades ++
          [⟨.buy, price, q, amount, reason, pnl, pnl_percent, commission⟩] }
    else if st.position = 0 then
      -- open long with the whole capital, reserving the per-share fee
      let max_quantity := pyInt (st.current_capital / (price + commission_per_share))
      if 0 < max_quantity then
        let amount := (max_quantity : ℚ) * price
        let commission := (max_quantity : ℚ) * commission_per_share
        let total_cost := amount + commission
        { current_capital := st.current_capital - total_cost
          total_commission := st.total_commission + commission
          position := max_quantity
          position_price := price
          trades := st.trades ++
            [⟨.buy, price, max_quantity, amount, reason, 0, 0, commission⟩] }
      else st
    else
      -- BUY while already long: the `position <= 0` block is skipped and a
      -- zero-quantity trade is recorded
      { st with trades := st.trades ++ [⟨.buy, price, 0, 0, reason, 0, 0, 0⟩] }
  | .sell =>
    if 0 < st.position then
      -- close long: credit sale amount minus the fee
      let q : ℤ := st.position
      let amount := (q : ℚ) * price
      let commission := (q : ℚ) * commission_per_share
      let pnl := (price - st.position_price) * (q : ℚ) - commission
      let pnl_percent := pnl / (st.position_price * (q : ℚ)) * 100
      { current_capital := st.current_capital + amount - commission
        total_commission := st.total_commission + commission
        position := 0
        position_price := 0
        trades := st.trades ++
          [⟨.sell, price, q, amount, reason, pnl, pnl_percent, commission⟩] }
    else if st.position = 0 then
      -- open short with the whole capital as frozen margin
      let max_quantity := pyInt (st.current_capital / (price + commission_per_share))
      if 0 < max_quantity then
        let amount := (max_quantity : ℚ) * price
        let commission := (max_quantity : ℚ) * commission_per_share
        let total_margin := amount + commission
        { current_capital := st.current_capital - total_margin
          total_commission := st.total_commission + commission
          position := -max_quantity
          position_price := price
          trades := st.trades ++
            [⟨.sell, price, max_quantity, amount, reason, 0, 0, commission⟩] }
      else st
    else
      -- SELL while already short: fall-through, zero-quantity trade
      { st with trades := st.trades ++ [⟨.sell, price, 0, 0, reason, 0, 0, 0⟩] }

/-- The tail of `RBreakerStrategy.run_backtest`: after the replay loop, if a
position is still open it is force-closed at the last available price with
reason `强制平仓` (forced liquidation). -/
def finalize (last_price : ℚ) (st : State) : State :=
  if st.position ≠ 0 then
    if 0 < st.position then execute_trade .sell last_price .forcedLiquidation st
    else execute_trade .buy last_price .forcedLiquidation st
  else st

end RB

namespace ID

/-- `IntradayReversalStrategy.commission_rate` = 0.25%. -/
def commission_rate : ℚ := 25 / 10000

/-- `IntradayReversalStrategy.stamp_duty_rate` = 0.1%, sell side only. -/
def stamp_duty_rate : ℚ := 1 / 1000

/-- `IntradayReversalStrategy.min_commission` = 3 HKD. -/
def min_commission : ℚ := 3

/-- `IntradayReversalStrategy.max_position_ratio` = 95%. -/
def max_position_ratio : ℚ := 95 / 100

/-- `IntradayReversalStrategy.stop_loss_percent` = 2%. -/
def stop_loss_percent : ℚ := 2 / 100

/-- `IntradayReversalStrategy.take_profit_percent` = 5%. -/
def take_profit_percent : ℚ := 5 / 100

/-- `IntradayReversalStrategy.min_hold_minutes` = 5. -/
def min_hold_minutes : ℤ := 5

/-- Market open 9:30 as minutes of day. -/
def market_open : ℕ := 9 * 60 + 30

/-- Market close 16:00 as minutes of day. -/
def market_close : ℕ := 16 * 60

/-- Forced flat time 15:45 (`force_close_time`) as minutes of day. -/
def force_close_time : ℕ := 15 * 60 + 45

/-- `IntradayReversalStrategy.min_drop_percent` = 3%. -/
def min_drop_percent : ℚ := 3 / 100

/-- `IntradayReversalStrategy.reversal_confirm_percent` = 0.5%. -/
def reversal_confirm_percent : ℚ := 5 / 1000

/-- `IntradayReversalStrategy.min_volume_surge` = 1.5. -/
def min_volume_surge : ℚ := 3 / 2

/-- `IntradayReversalStrategy.calculate_trading_cost`: commission is
`max(trade_value * commission_rate, min_commission)`, and a stamp duty of
`trade_value * stamp_duty_rate` is added on sells only. -/
def calculate_trading_cost (price : ℚ) (quantity : ℤ) (is_buy : Bool) : ℚ :=
  let trade_value := price * (quantity : ℚ)
  let commission := max (trade_value * commission_rate) min_commission
  let stamp_duty := if is_buy then 0 else trade_value * stamp_duty_rate
  commission + stamp_duty

/-- `IntradayReversalStrategy.calculate_position_size` with
`use_full_position = True` (the configured value, so the fixed-position
branch is dead code): size 95% of current capital, floored to a whole
100-share lot, shrunk further if the lot plus its estimated buy cost does
not fit in the current capital. -/
def calculate_position_size (current_capital : ℚ) (price : ℚ) : ℤ :=
  let available_capital := current_capital * max_position_ratio
  let estimated_shares := pyFloorDiv (pyInt (available_capital / price)) 100 * 100
  if 0 < estimated_shares then
    let buy_cost := calculate_trading_cost price estimated_shares true
    let total_cost := price * (estimated_shares : ℚ) + buy_cost
    if total_cost ≤ current_capital then estimated_shares
    else pyFloorDiv (pyInt ((current_capital - buy_cost) / price)) 100 * 100
  else 0

/-- A 1-minute bar of `simulate_trading_day`, carrying the indicator columns
of `calculate_intraday_indicators` that the entry checks read.  `ma5` and
`volume_surge` are `none` where pandas leaves `NaN` (insufficient history);
`price_change` and `cumulative_return` are read only at indices `≥ 20`,
where they are always defined, so they are plain rationals. -/
structure Bar where
  time_min : ℕ
  close : ℚ
  price_change : ℚ
  cumulative_return : ℚ
  volume_surge : Option ℚ
  ma5 : Option ℚ
deriving DecidableEq, Repr

/-- `IntradayReversalStrategy.check_drop_signal` (boolean part): needs at
least 20 bars of history, a cumulative drop beyond `min_drop_percent`, and a
defined volume surge of at least `min_volume_surge`. -/
def check_drop_signal (df : List Bar) (i : ℕ) : Bool :=
  if i < 20 then false
  else
    match df.get? i with
    | none => false
    | some cur =>
      if cur.cumulative_return ≤ -min_drop_percent then
        match cur.volume_surge with
        | some vs => decide (min_volume_surge ≤ vs)
        | none => false
      else false

/-- `IntradayReversalStrategy.check_reversal_signal` (boolean part): needs
at least 20 bars of history and at least two of the four listed conditions
(price bounce, MA5 cross, volume backing, two consecutive rises). -/
def check_reversal_signal (df : List Bar) (i : ℕ) : Bool :=
  if i < 20 then false
  else
    match df.get? i, df.get? (i - 1) with
    | some cur, some prev =>
      let c1 : Bool := decide (reversal_confirm_percent < cur.price_change)
      let c2 : Bool :=
        match cur.ma5, prev.ma5 with
        | some m, some pm => decide (m < cur.close ∧ prev.close ≤ pm)
        | _, _ => false
      let c3 : Bool :=
        match cur.volume_surge with
        | some vs => decide ((6 : ℚ) / 5 < vs)
        | none => false
      let c4 : Bool := decide (2 ≤ i ∧ 0 < cur.price_change ∧ 0 < prev.price_change)
      2 ≤ c1.toNat + c2.toNat + c3.toNat + c4.toNat
    | _, _ => false

/-- The `position` dict built at a buy in `simulate_trading_day`. -/
structure Position where
  entry_time_min : ℕ
  entry_price : ℚ
  quantity : ℤ
  buy_cost : ℚ
  max_profit : ℚ
  max_loss : ℚ
  hold_minutes : ℤ
deriving DecidableEq, Repr

/-- The `exit_reason` strings of `IntradayTrade`. -/
inductive ExitReason where
  | takeProfit
  | stopHit
  | closeOut
deriving DecidableEq, Repr

/-- The `IntradayTrade` record (date/symbol and excursion fields that no
claim mentions are dropped). -/
structure ITrade where
  entry_price : ℚ
  exit_price : ℚ
  quantity : ℤ
  pnl : ℚ
  exit_reason : ExitReason
  exit_time_min : ℕ
deriving DecidableEq, Repr

/-- The loop state of one `simulate_trading_day` call.  `broke` models the
Python `break` after the forced close: once set, the remaining bars of the
day are not processed. -/
structure DayState where
  capital : ℚ
  position : Option Position
  looking_for_drop : Bool
  drop_detected : Bool
  broke : Bool
  daily_trades : List ITrade
deriving DecidableEq, Repr

/-- Closing a position at `price` / bar time `t`: credit
`price*quantity - sell_cost`, record the trade with
`pnl = (exit - entry)*quantity - buy_cost - sell_cost`. -/
def close_position (st : DayState) (pos : Position) (price : ℚ) (t : ℕ)
    (reason : ExitReason) (looking : Bool) : DayState :=
  let sell_cost := calculate_trading_cost price pos.quantity false
  let pnl := (price - pos.entry_price) * (pos.quantity : ℚ) - pos.buy_cost - sell_cost
  { st with
    capital := st.capital + price * (pos.quantity : ℚ) - sell_cost
    position := none
    looking_for_drop := looking
    daily_trades := st.daily_trades ++
      [⟨pos.entry_price, price, pos.quantity, pnl, reason, t⟩] }

/-- The entry attempt of `simulate_trading_day` once a reversal is
confirmed: size the position, compute the buy cost, and enter only when
`total_cost ≤ current_capital` and the quantity is positive; otherwise the
candidate is dropped with no state change. -/
def try_enter (st : DayState) (price : ℚ) (t : ℕ) : DayState :=
  let quantity := calculate_position_size st.capital price
  if 0 < quantity then
    let buy_cost := calculate_trading_cost price quantity true
    let total_cost := price * (quantity : ℚ) + buy_cost
    if total_cost ≤ st.capital then
      { st with
        capital := st.capital - total_cost
        position := some ⟨t, price, quantity, buy_cost, 0, 0, 0⟩
        drop_detected := false }
    else st
  else st

/-- One iteration of the bar loop of `simulate_trading_day` at index `i`:
skip bars outside 9:30–16:00; from 15:45 force-close an open position and
break; while flat, look for the drop and then the reversal; while holding,
update `hold_minutes`, skip every exit check when the holding time is
under `min_hold_minutes`, otherwise update the excursion extremes and test
take-profit then stop-loss. -/
def day_step (df : List Bar) (st : DayState) (i : ℕ) : DayState :=
  if st.broke then st
  else
    match df.get? i with
    | none => st
    | some bar =>
      let t := bar.time_min
      let price := bar.close
      if ¬ (market_open ≤ t ∧ t ≤ market_close) then st
      else
        match st.position with
        | some pos =>
          if force_close_time ≤ t then
            { close_position st pos price t .closeOut st.looking_for_drop with broke := true }
          else
            let hold : ℤ := (t : ℤ) - (pos.entry_time_min : ℤ)
            let pos1 := { pos with hold_minutes := hold }
            if hold < min_hold_minutes then { st with position := some pos1 }
            else
              let sell_cost := calculate_trading_cost price pos.quantity false
              let current_pnl := (price - pos.entry_price) * (pos.quantity : ℚ)
                - pos.buy_cost - sell_cost
              let pos2 := { pos1 with
                max_profit := max pos1.max_profit current_pnl
                max_loss := min pos1.max_loss current_pnl }
              let profit_percent := price / pos.entry_price - 1
              if take_profit_percent ≤ profit_percent then
                close_position { st with position := some pos2 } pos2 price t .takeProfit true
              else if profit_percent ≤ -stop_loss_percent then
                close_position { st with position := some pos2 } pos2 price t .stopHit true
              else { st with position := some pos2 }
        | none =>
          let st1 :=
            if st.looking_for_drop ∧ check_drop_signal df i then
              { st with drop_detected := true, looking_for_drop := false }
            else st
          if st1.drop_detected ∧ check_reversal_signal df i then
            try_enter st1 price t
          else st1

/-- `IntradayReversalStrategy.simulate_trading_day` restricted to its
trading loop: fold `day_step` over all bar indices of the day, starting
flat.  The Python function then returns the day's trades and capital and
discards the local `position` variable; the returned `DayState` keeps it so
that theorems can speak about a position left open. -/
def simulate_trading_day (df : List Bar) (capital0 : ℚ) : DayState :=
  (List.range df.length).foldl (day_step df)
    ⟨capital0, none, true, false, false, []⟩

end ID

/-! Pandas series primitives used by both indicator engines.  A series is a
partial function `ℕ → Option ℚ`; `none` stands for `NaN`/out of range. -/

/-- A pandas series built from a list of raw values. -/
def ofList (l : List ℚ) : ℕ → Option ℚ := fun i => l.get? i

/-- `series.shift(1)`: index 0 becomes `NaN`, index `i+1` reads index `i`. -/
def shiftOne (s : ℕ → Option ℚ) : ℕ → Option ℚ :=
  fun i => if i = 0 then none else s (i - 1)

/-- `series.rolling(w, min_periods=w).mean()` at index `i`: the mean of
entries `i+1-w .. i`, defined only when the window is full (`w ≤ i+1`) and
every entry in it is defined.  (`rolling(w)` without `min_periods` defaults
to `min_periods = w`, so both call sites share this definition.) -/
def rollingMean (w : ℕ) (s : ℕ → Option ℚ) (i : ℕ) : Option ℚ :=
  if w ≤ i + 1 ∧ ∀ k ∈ List.range w, (s (i + 1 - w + k)).isSome then
    some ((((List.range w).map (fun k => (s (i + 1 - w + k)).getD 0)).sum) / (w : ℚ))
  else none

/-- Elementwise quotient of two series (`NaN` propagates). -/
def seriesDiv (a b : ℕ → Option ℚ) : ℕ → Option ℚ :=
  fun i =>
    match a i, b i with
    | some x, some y => some (x / y)
    | _, _ => none

namespace ID

/-- `calculate_intraday_indicators`:
`volume_ma10 = volume.shift(1).rolling(10, min_periods=10).mean()` —
the trailing average of the ten volumes strictly before the current bar. -/
def volume_ma10 (volume : List ℚ) : ℕ → Option ℚ :=
  rollingMean 10 (shiftOne (ofList volume))

/-- `calculate_intraday_indicators`: `volume_surge = volume / volume_ma10`. -/
def volume_surge (volume : List ℚ) : ℕ → Option ℚ :=
  seriesDiv (ofList volume) (volume_ma10 volume)

end ID

namespace SC

/-- `MidCapBreakoutStrategy.stop_loss_percent` = 5%. -/
def stop_loss_percent : ℚ := 5 / 100

/-- `MidCapBreakoutStrategy.take_profit_percent` = 50%. -/
def take_profit_percent : ℚ := 50 / 100

/-- `MidCapBreakoutStrategy.max_positions` = 3. -/
def max_positions : ℕ := 3

/-- `calculate_indicators`: `volume_ma10 = volume.rolling(10).mean()` —
note that, unlike the intraday variant, the window is **not** shifted, so it
includes the current bar. -/
def volume_ma10 (volume : List ℚ) : ℕ → Option ℚ :=
  rollingMean 10 (ofList volume)

/-- `calculate_indicators`: `volume_surge = volume / volume_ma10`. -/
def volume_surge (volume : List ℚ) : ℕ → Option ℚ :=
  seriesDiv (ofList volume) (volume_ma10 volume)

/-- The indicator snapshot read by `check_exit_signal` at the current date:
the latest row's fields plus the rolling tails of the `price_change` column,
the 10-day high and the history length.  Optional fields are `none` where
pandas leaves `NaN` (the source guards them with `pd.isna`); `price_change`
is plain because every date at which a position can exist has at least ten
prior rows, where `pct_change` is defined. -/
structure ExitCtx where
  current_price : ℚ
  entry_price : ℚ
  hold_days : ℤ
  price_change : ℚ
  volume_surge : Option ℚ
  ma5 : Option ℚ
  rsi : Option ℚ
  hist_len : ℕ
  tail2 : List ℚ
  tail3 : List ℚ
  tail5 : List ℚ
  high10_max : ℚ
deriving DecidableEq, Repr

/-- The exit reasons produced by `check_exit_signal`, in source order. -/
inductive ExitReason where
  | stopHit
  | takeProfitHit
  | shortTermProfit
  | midTermProfit
  | trendWeak
  | movingTakeProfit
  | volumeDivergence
  | maBreakdown
  | consecutiveDecline
  | stagnation
  | rsiOverheat
  | volumeDump
  | continuousFall
  | timeStopLoss
  | timeStopPoor
  | marketDeteriorate
deriving DecidableEq, Repr

/-- `MidCapBreakoutStrategy.check_exit_signal`, transliterated branch by
branch.  The Python function is a sequence of early returns, which is the
same as this `if`-chain; the unconditional hard stop-loss is the first
check and the hard take-profit the second. -/
def check_exit_signal (c : ExitCtx) : Option ExitReason :=
  let current_gain := (c.current_price - c.entry_price) / c.entry_price
  if c.current_price ≤ c.entry_price * (1 - stop_loss_percent) then
    some .stopHit
  else if c.entry_price * (1 + take_profit_percent) ≤ c.current_price then
    some .takeProfitHit
  else if 1 ≤ c.hold_days ∧ c.hold_days ≤ 3 ∧ 15/100 ≤ current_gain ∧
      c.price_change < -(8/100) then
    some .shortTermProfit
  else if 4 ≤ c.hold_days ∧ c.hold_days ≤ 10 ∧ 10/100 ≤ current_gain ∧
      c.price_change < -(10/100) then
    some .midTermProfit
  else if 4 ≤ c.hold_days ∧ c.hold_days ≤ 10 ∧ 10/100 ≤ current_gain ∧
      3 ≤ c.hist_len ∧ (∀ ch ∈ c.tail3, ch < -(5/100)) then
    some .trendWeak
  else if 11 ≤ c.hold_days ∧ 5/100 ≤ current_gain ∧ 10 ≤ c.hist_len ∧
      15/100 < (c.high10_max - c.current_price) / c.high10_max then
    some .movingTakeProfit
  else if 3 ≤ c.hist_len ∧ (∃ vs, c.volume_surge = some vs ∧ vs < 7/10) ∧
      c.price_change < -(4/100) then
    some .volumeDivergence
  else if 3 ≤ c.hist_len ∧ (∃ m, c.ma5 = some m ∧ c.current_price < m) ∧
      (∃ vs, c.volume_surge = some vs ∧ 3/2 < vs) ∧
      c.price_change < -(4/100) then
    some .maBreakdown
  else if 3 ≤ c.hist_len ∧ 2 ≤ c.hist_len ∧
      (∀ ch ∈ c.tail2, ch < -(2/100)) then
    some .consecutiveDecline
  else if 10/100 < current_gain ∧ 5 ≤ c.hold_days ∧
      (∀ ch ∈ c.tail5, |ch| < 2/100) then
    some .stagnation
  else if 10/100 < current_gain ∧ (∃ r, c.rsi = some r ∧ 90 < r) then
    some .rsiOverheat
  else if current_gain < -(2/100) ∧
      (∃ vs, c.volume_surge = some vs ∧ 2 < vs) ∧
      c.price_change < -(3/100) then
    some .volumeDump
  else if current_gain < -(2/100) ∧ 3 ≤ c.hist_len ∧
      2 ≤ (c.tail3.filter (fun ch => ch < -(2/100))).length then
    some .continuousFall
  else if 20 ≤ c.hold_days ∧ current_gain < -(3/100) then
    some .timeStopLoss
  else if 20 ≤ c.hold_days ∧ 30 ≤ c.hold_days ∧ current_gain < 5/100 then
    some .timeStopPoor
  else if 3 ≤ c.hist_len ∧
      2 ≤ (c.tail3.filter (fun ch => ch < -(4/100))).length then
    some .marketDeteriorate
  else none

/-- A long position of `run_backtest` (`self.positions[symbol]`), with the
symbol as a number.  `current_price` and `market_cap` are bookkeeping no
claim needs. -/
structure Pos where
  sym : ℕ
  entry_price : ℚ
  quantity : ℤ
deriving DecidableEq, Repr

/-- `BUY`/`SELL` actions of the small-cap `Trade` dataclass (`SHORT` and
`COVER` are unreachable because `enable_short = False`). -/
inductive TAction where
  | buy
  | sell
deriving DecidableEq, Repr

/-- The small-cap `Trade` record (date/reason/market-cap fields that no
claim needs are dropped; entries carry `pnl = 0` as in the dataclass
default). -/
structure STrade where
  sym : ℕ
  action : TAction
  price : ℚ
  quantity : ℤ
  pnl : ℚ
deriving DecidableEq, Repr

/-- The ledger state of `run_backtest`: `current_capital`, the open long
positions and the append-only trade log.  (`short_positions` stays empty
because `enable_short = False`, so it is not modelled.) -/
structure LState where
  capital : ℚ
  positions : List Pos
  trades : List STrade
deriving DecidableEq, Repr

/-- The sell branch of `run_backtest`: credit `sell_price * quantity`
(`run_backtest` charges no commission), record the trade with
`pnl = (sell_price - entry_price) * quantity`, and delete the position. -/
def sellAt (sym : ℕ) (price : ℚ) (st : LState) : LState :=
  match st.positions.find? (fun p => p.sym = sym) with
  | none => st
  | some pos =>
    { capital := st.capital + price * (pos.quantity : ℚ)
      positions := st.positions.erase pos
      trades := st.trades ++
        [⟨sym, .sell, price, pos.quantity, (price - pos.entry_price) * (pos.quantity : ℚ)⟩] }

/-- The buy branch of `run_backtest` for one accepted candidate: size 8% of
current capital, floor to a 100-share lot, and, when the quantity is
positive, debit exactly `price * quantity` (no commission) and open the
position; otherwise do nothing.  Candidates are only collected for symbols
without an open position. -/
def tryBuy (sym : ℕ) (price : ℚ) (st : LState) : LState :=
  if st.positions.any (fun p => p.sym = sym) then st
  else
    let position_size := st.capital * (8 / 100)
    let quantity := pyInt (position_size / price / 100) * 100
    if 0 < quantity then
      { capital := st.capital - price * (quantity : ℚ)
        positions := st.positions ++ [⟨sym, price, quantity⟩]
        trades := st.trades ++ [⟨sym, .buy, price, quantity, 0⟩] }
    else st

/-- The accepted-candidate loop of `run_backtest`
(`for ... in buy_candidates[:3]`): stop as soon as the open-position count
reaches `max_positions`, otherwise try each candidate in order. -/
def applyEntries (cands : List (ℕ × ℚ)) (st : LState) : LState :=
  match cands with
  | [] => st
  | (sym, price) :: rest =>
    if max_positions ≤ st.positions.length then st
    else applyEntries rest (tryBuy sym price st)

/-- The whole entry phase of one trading day: guarded by
`len(self.positions) < self.max_positions`, then at most the top three
ranked candidates are tried. -/
def dayEntries (cands : List (ℕ × ℚ)) (st : LState) : LState :=
  if st.positions.length < max_positions then applyEntries (cands.take 3) st
  else st

/-- One trading day of `run_backtest`: first every triggered exit is
executed, then the entry phase runs.  The exits and the ranked entry
candidates are data here: which signals fire is decided by the indicator
functions, and the ledger behaviour under scrutiny is the same for every
choice of them. -/
def dayStep (st : LState) (d : List (ℕ × ℚ) × List (ℕ × ℚ)) : LState :=
  dayEntries d.2 (d.1.foldl (fun s e => sellAt e.1 e.2 s) st)

/-- The day loop of `run_backtest`, starting from an all-cash ledger. -/
def run_backtest (days : List (List (ℕ × ℚ) × List (ℕ × ℚ)))
    (initial_capital : ℚ) : LState :=
  days.foldl dayStep ⟨initial_capital, [], []⟩

/-- The tail of `run_backtest` (lines computing `final_value`): still-open
positions are only marked to market at their last price and added to the
cash; no trade is recorded and no position is closed. -/
def final_value (st : LState) (prices : ℕ → ℚ) : ℚ :=
  st.capital + (st.positions.map (fun p => prices p.sym * (p.quantity : ℚ))).sum

/-- Mark-to-market value of the open positions at given prices. -/
def mtm (st : LState) (prices : ℕ → ℚ) : ℚ :=
  (st.positions.map (fun p => prices p.sym * (p.quantity : ℚ))).sum

/-- Book (entry) value of the open positions. -/
def bookValue (st : LState) : ℚ :=
  (st.positions.map (fun p => p.entry_price * (p.quantity : ℚ))).sum

/-- Sum of the recorded pnl of all trades (entries carry pnl 0). -/
def realized (st : LState) : ℚ := (st.trades.map (fun t => t.pnl)).sum

/-- Unrealized pnl of the open positions at given prices. -/
def unrealized (st : LState) (prices : ℕ → ℚ) : ℚ :=
  (st.positions.map (fun p => (prices p.sym - p.entry_price) * (p.quantity : ℚ))).sum

/-- Number of recorded exit (`SELL`) trades. -/
def sellCount (st : LState) : ℕ :=
  (st.trades.filter (fun t => decide (t.action = TAction.sell))).length

/-- Number of recorded entry (`BUY`) trades. -/
def buyCount (st : LState) : ℕ :=
  (st.trades.filter (fun t => decide (t.action = TAction.buy))).length

end SC

namespace RB

/-- `StrategyConfig.initial_capital` = 100000 USD. -/
def initial_capital : ℚ := 100000

/-- The risk-free rate hard-coded in `generate_report` (3%). -/
def risk_free_rate : ℚ := 3 / 100

/-- `np.mean` of a list of rationals (0 on the empty list, via `0/0 = 0`). -/
def mean (l : List ℚ) : ℚ := l.sum / (l.length : ℚ)

/-- The Sharpe-ratio computation of `RBreakerStrategy.generate_report`.
`std_daily` is the sample standard deviation of the daily returns and
`sqrt252` is `math.sqrt(252)`; both are irrational in general, and they
enter the report only through the annualized-volatility product, so they
are kept as parameters here.  The guard `len(daily_pnl) > 1 and
initial_capital > 0` and the `annual_volatility != 0` fallback are exactly
the source's. -/
def sharpe_of_report (daily_pnl : List ℚ) (std_daily sqrt252 : ℚ) : ℚ :=
  if 1 < daily_pnl.length ∧ 0 < initial_capital then
    let daily_returns := daily_pnl.map (fun p => p / initial_capital)
    let annual_return := mean daily_returns * 252 * 100
    let annual_volatility := std_daily * sqrt252 * 100
    if annual_volatility ≠ 0 then
      (annual_return / 100 - risk_free_rate) / (annual_volatility / 100)
    else 0
  else 0

end RB

namespace ID

/-- `np.mean` over the reals. -/
noncomputable def meanR (l : List ℝ) : ℝ := l.sum / (l.length : ℝ)

/-- `np.std` (population standard deviation, `ddof = 0`) over the reals. -/
noncomputable def std_population (l : List ℝ) : ℝ :=
  Real.sqrt ((l.map (fun x => (x - meanR l) ^ 2)).sum / (l.length : ℝ))

/-- The Sharpe-ratio computation of
`IntradayReversalStrategy.generate_backtest_report`:
`mean / std * sqrt(252)` when the per-trade return list is nonempty with
positive standard deviation, else 0 (the source comment notes the zero
risk-free rate). -/
noncomputable def sharpe_of_report (daily_returns : List ℝ) : ℝ :=
  if daily_returns ≠ [] ∧ 0 < std_population daily_returns then
    meanR daily_returns / std_population daily_returns * Real.sqrt 252
  else 0

/-- A bar at minute 0, outside the 9:30–16:00 session, skipped by the day
loop; used to pad concrete example days past the 20-bar history guard. -/
def dummyBar : Bar := ⟨0, 1, 1, 0, none, none⟩

/-- Example bar at 10:00, close 100: cumulative drop 5% with volume surge 2
(drop signal), price change 1% with the previous bar also up (reversal
signal conditions 1, 3 and 4). -/
def exEntryBar : Bar := ⟨600, 100, 1/100, -(5/100), some 2, none⟩

/-- Example bar at 10:02, close 90: a 10% loss against an entry at 100,
beyond the 2% stop, two minutes after entry. -/
def exCrashBarA : Bar := ⟨602, 90, -(1/10), -(145/1000), some 1, none⟩

/-- Example bar at 10:02, close 95: a 5% loss against an entry at 100,
beyond the 2% stop, two minutes after entry. -/
def exCrashBarB : Bar := ⟨602, 95, -(5/100), -(975/10000), some 1, none⟩

/-- Example day for the open-position-leak scenario: 20 padding bars, an
entry at 10:00, a crash to 90 at 10:02; every bar is before 15:45. -/
def exDfA : List Bar := List.replicate 20 dummyBar ++ [exEntryBar, exCrashBarA]

/-- Example day for the minimum-holding-guard scenario: 20 padding bars, an
entry at 10:00, a 5% loss at 10:02 (stop-loss condition true, holding time
2 minutes). -/
def exDfB : List Bar := List.replicate 20 dummyBar ++ [exEntryBar, exCrashBarB]

end ID

namespace SC

/-- Eleven example volumes: ten bars of volume 1, then a bar of volume 11. -/
def exVolumes : List ℚ := [1, 1, 1, 1, 1, 1, 1, 1, 1, 1, 11]

end SC

/-! ### Helper lemmas -/

theorem pyInt_le_of_nonneg {x : ℚ} (hx : 0 ≤ x) : (pyInt x : ℚ) ≤ x := by
  simp only [pyInt, if_pos hx]
  exact Int.floor_le x

theorem pos_of_pyInt_pos {x : ℚ} (h : 0 < pyInt x) : 0 < x := by
  by_contra hx
  push_neg at hx
  rcases lt_or_eq_of_le hx with hlt | heq
  · have h0 : ¬ (0 ≤ x) := not_le.mpr hlt
    simp only [pyInt, if_neg h0] at h
    have : (0 : ℤ) ≤ ⌊-x⌋ := Int.floor_nonneg.mpr (by linarith)
    omega
  · subst heq
    simp [pyInt] at h

theorem pyFloorDiv_mul_le (t : ℤ) : pyFloorDiv t 100 * 100 ≤ t := by
  have h : (pyFloorDiv t 100 : ℚ) ≤ (t : ℚ) / 100 := Int.floor_le _
  have h2 : (pyFloorDiv t 100 : ℚ) * 100 ≤ (t : ℚ) := by
    calc (pyFloorDiv t 100 : ℚ) * 100 ≤ (t : ℚ) / 100 * 100 := by
          exact mul_le_mul_of_nonneg_right h (by norm_num)
      _ = (t : ℚ) := by ring
  exact_mod_cast h2

theorem pos_of_pyFloorDiv_mul_pos {t : ℤ} (h : 0 < pyFloorDiv t 100 * 100) : 0 < t :=
  lt_of_lt_of_le h (pyFloorDiv_mul_le t)

theorem trading_cost_buy_mono {price : ℚ} (hp : 0 ≤ price) {q q' : ℤ} (h : q ≤ q') :
    ID.calculate_trading_cost price q true ≤ ID.calculate_trading_cost price q' true := by
  simp only [ID.calculate_trading_cost, if_pos]
  have hqq : (q : ℚ) ≤ (q' : ℚ) := by exact_mod_cast h
  have h1 : price * (q : ℚ) * ID.commission_rate ≤ price * (q' : ℚ) * ID.commission_rate := by
    have := mul_le_mul_of_nonneg_left hqq hp
    exact mul_le_mul_of_nonneg_right this (by norm_num [ID.commission_rate])
  simpa using max_le_max h1 (le_refl ID.min_commission)

theorem id_volume_ma10_eq (v : List ℚ) (i : ℕ) (h10 : 10 ≤ i) (hlen : i < v.length) :
    ID.volume_ma10 v i =
      some ((((List.range 10).map (fun k => v.getD (i - 10 + k) 0)).sum) / 10) := by
  have hstep : ∀ k, k < 10 → (shiftOne (ofList v)) (i + 1 - 10 + k) =
      some (v.getD (i - 10 + k) 0) := by
    intro k hk
    have hne : ¬ (i + 1 - 10 + k = 0) := by omega
    have hidx : i + 1 - 10 + k - 1 = i - 10 + k := by omega
    have hlt : i - 10 + k < v.length := by omega
    rw [shiftOne, if_neg hne, hidx, ofList, List.get?_eq_getElem?,
      List.getElem?_eq_getElem hlt, List.getD_eq_getElem v 0 hlt]
  have hcond : ∀ k ∈ List.range 10, ((shiftOne (ofList v)) (i + 1 - 10 + k)).isSome := by
    intro k hk
    simp only [List.mem_range] at hk
    rw [hstep k hk]
    rfl
  rw [ID.volume_ma10, rollingMean, if_pos ⟨by omega, hcond⟩]
  congr 1
  have hmap : (List.range 10).map (fun k => ((shiftOne (ofList v)) (i + 1 - 10 + k)).getD 0)
      = (List.range 10).map (fun k => v.getD (i - 10 + k) 0) := by
    apply List.map_congr_left
    intro k hk
    simp only [List.mem_range] at hk
    rw [hstep k hk]
    rfl
  rw [hmap]
  norm_num

theorem id_volume_surge_eq (v : List ℚ) (i : ℕ) (h10 : 10 ≤ i) (hlen : i < v.length) :
    ID.volume_surge v i =
      some (v.getD i 0 /
        ((((List.range 10).map (fun k => v.getD (i - 10 + k) 0)).sum) / 10)) := by
  have hv : ofList v i = some (v.getD i 0) := by
    rw [ofList, List.get?_eq_getElem?, List.getElem?_eq_getElem hlen,
      List.getD_eq_getElem v 0 hlen]
  simp [ID.volume_surge, seriesDiv, hv, id_volume_ma10_eq v i h10 hlen]

theorem id_volume_surge_none (v : List ℚ) (i : ℕ) (h : i < 10) :
    ID.volume_surge v i = none := by
  have hma : ID.volume_ma10 v i = none := by
    rw [ID.volume_ma10, rollingMean, if_neg]
    rintro ⟨h1, h2⟩
    have h9 : i = 9 := by omega
    have := h2 0 (by simp)
    subst h9
    simp [shiftOne] at this
  rcases haa : ofList v i with _ | x <;> simp [ID.volume_surge, seriesDiv, hma, haa]

theorem sc_volume_ma10_eq (v : List ℚ) (i : ℕ) (h9 : 9 ≤ i) (hlen : i < v.length) :
    SC.volume_ma10 v i =
      some ((((List.range 10).map (fun k => v.getD (i - 9 + k) 0)).sum) / 10) := by
  have hstep : ∀ k, k < 10 → (ofList v) (i + 1 - 10 + k) =
      some (v.getD (i - 9 + k) 0) := by
    intro k hk
    have hidx : i + 1 - 10 + k = i - 9 + k := by omega
    have hlt : i - 9 + k < v.length := by omega
    rw [ofList, hidx, List.get?_eq_getElem?, List.getElem?_eq_getElem hlt,
      List.getD_eq_getElem v 0 hlt]
  have hcond : ∀ k ∈ List.range 10, ((ofList v) (i + 1 - 10 + k)).isSome := by
    intro k hk
    simp only [List.mem_range] at hk
    rw [hstep k hk]
    rfl
  have hmap : (List.range 10).map (fun k => ((ofList v) (i + 1 - 10 + k)).getD 0)
      = (List.range 10).map (fun k => v.getD (i - 9 + k) 0) := by
    apply List.map_congr_left
    intro k hk
    simp only [List.mem_range] at hk
    rw [hstep k hk]
    rfl
  rw [SC.volume_ma10, rollingMean, if_pos ⟨by omega, hcond⟩, hmap]
  norm_num

theorem sc_volume_surge_eq (v : List ℚ) (i : ℕ) (h9 : 9 ≤ i) (hlen : i < v.length) :
    SC.volume_surge v i =
      some (v.getD i 0 /
        ((((List.range 10).map (fun k => v.getD (i - 9 + k) 0)).sum) / 10)) := by
  have hv : ofList v i = some (v.getD i 0) := by
    rw [ofList, List.get?_eq_getElem?, List.getElem?_eq_getElem hlen,
      List.getD_eq_getElem v 0 hlen]
  simp [SC.volume_surge, seriesDiv, hv, sc_volume_ma10_eq v i h9 hlen]

theorem sc_volume_surge_none (v : List ℚ) (i : ℕ) (h : i < 9) :
    SC.volume_surge v i = none := by
  have hma : SC.volume_ma10 v i = none := by
    rw [SC.volume_ma10, rollingMean, if_neg]
    rintro ⟨h1, h2⟩
    omega
  rcases haa : ofList v i with _ | x <;> simp [SC.volume_surge, seriesDiv, hma, haa]

/-! ### C6: volume-surge ratio -/

/-- C6 (amended): in the intraday variant the volume-surge ratio at bar `i`
is the bar's own volume divided by the average of the ten volumes strictly
before `i` (undefined when `i < 10`); in the small-cap variant the
denominator window is the ten bars ending at — and therefore including —
the current bar `i` (undefined when `i < 9`). -/
theorem c6_volume_surge_amended (v : List ℚ) (i : ℕ) (h : i < v.length) :
    ID.volume_surge v i =
      (if 10 ≤ i then
        some (v.getD i 0 /
          ((((List.range 10).map (fun k => v.getD (i - 10 + k) 0)).sum) / 10))
      else none) ∧
    SC.volume_surge v i =
      (if 9 ≤ i then
        some (v.getD i 0 /
          ((((List.range 10).map (fun k => v.getD (i - 9 + k) 0)).sum) / 10))
      else none) := by
  constructor
  · by_cases h10 : 10 ≤ i
    · rw [if_pos h10]
      exact id_volume_surge_eq v i h10 h
    · rw [if_neg h10]
      exact id_volume_surge_none v i (by omega)
  · by_cases h9 : 9 ≤ i
    · rw [if_pos h9]
      exact sc_volume_surge_eq v i h9 h
    · rw [if_neg h9]
      exact sc_volume_surge_none v i (by omega)

/-- Witness for `c6_volume_surge_amended` at the eleven example volumes and
index 10. -/
theorem c6_volume_surge_amended_witness :
    10 < SC.exVolumes.length ∧
    (ID.volume_surge SC.exVolumes 10 =
      (if 10 ≤ 10 then
        some (SC.exVolumes.getD 10 0 /
          ((((List.range 10).map (fun k => SC.exVolumes.getD (10 - 10 + k) 0)).sum) / 10))
      else none) ∧
    SC.volume_surge SC.exVolumes 10 =
      (if 9 ≤ 10 then
        some (SC.exVolumes.getD 10 0 /
          ((((List.range 10).map (fun k => SC.exVolumes.getD (10 - 9 + k) 0)).sum) / 10))
      else none)) :=
  ⟨by decide, c6_volume_surge_amended SC.exVolumes 10 (by decide)⟩

/-- Counterexample for C6 as stated: on the example volumes (ten bars of
volume 1, then one of volume 11) the small-cap ratio at index 10 is 11/2,
not the value 11 that "own volume divided by the trailing average over bars
strictly before `i`" would give, because the denominator window includes
the current bar. -/
theorem c6_volume_surge_counterexample :
    SC.volume_surge SC.exVolumes 10 = some (11/2) ∧
    SC.volume_surge SC.exVolumes 10 ≠
      some (SC.exVolumes.getD 10 0 /
        ((((List.range 10).map (fun k => SC.exVolumes.getD (10 - 10 + k) 0)).sum) / 10)) := by
  have h := sc_volume_surge_eq SC.exVolumes 10 (by norm_num) (by decide)
  rw [h]
  constructor
  · norm_num [SC.exVolumes, List.range_succ, List.getD_cons_zero, List.getD_cons_succ]
  · norm_num [SC.exVolumes, List.range_succ, List.getD_cons_zero, List.getD_cons_succ]

/-! ### C3: max concurrent positions -/

theorem sc_sellAt_length_le (sym : ℕ) (price : ℚ) (st : SC.LState) :
    (SC.sellAt sym price st).positions.length ≤ st.positions.length := by
  rw [SC.sellAt]
  cases hf : st.positions.find? (fun p => p.sym = sym) with
  | none => exact le_refl _
  | some pos =>
    simpa using (List.erase_sublist pos st.positions).length_le

theorem sc_tryBuy_length_le (sym : ℕ) (price : ℚ) (st : SC.LState) :
    (SC.tryBuy sym price st).positions.length ≤ st.positions.length + 1 := by
  rw [SC.tryBuy]
  by_cases ha : st.positions.any (fun p => p.sym = sym)
  · rw [if_pos ha]
    omega
  · rw [if_neg ha]
    by_cases hq : (0 : ℤ) < pyInt (st.capital * (8/100) / price / 100) * 100
    · rw [if_pos hq]
      simp
    · rw [if_neg hq]
      omega

theorem sc_applyEntries_le (cands : List (ℕ × ℚ)) (st : SC.LState)
    (h : st.positions.length ≤ SC.max_positions) :
    (SC.applyEntries cands st).positions.length ≤ SC.max_positions := by
  induction cands generalizing st with
  | nil => exact h
  | cons c rest ih =>
    obtain ⟨sym, price⟩ := c
    rw [SC.applyEntries]
    by_cases hm : SC.max_positions ≤ st.positions.length
    · rw [if_pos hm]
      exact h
    · rw [if_neg hm]
      apply ih
      have := sc_tryBuy_length_le sym price st
      omega

theorem sc_dayStep_le (d : List (ℕ × ℚ) × List (ℕ × ℚ)) (st : SC.LState)
    (h : st.positions.length ≤ SC.max_positions) :
    (SC.dayStep st d).positions.length ≤ SC.max_positions := by
  have hsells : ∀ (sells : List (ℕ × ℚ)) (s : SC.LState),
      s.positions.length ≤ SC.max_positions →
      ((sells.foldl (fun s e => SC.sellAt e.1 e.2 s) s).positions.length ≤ SC.max_positions) := by
    intro sells
    induction sells with
    | nil => intro s hs; exact hs
    | cons e rest ih =>
      intro s hs
      rw [List.foldl_cons]
      apply ih
      show (SC.sellAt e.1 e.2 s).positions.length ≤ SC.max_positions
      have := sc_sellAt_length_le e.1 e.2 s
      omega
  rw [SC.dayStep, SC.dayEntries]
  by_cases hm : ((d.1.foldl (fun s e => SC.sellAt e.1 e.2 s) st).positions.length < SC.max_positions)
  · rw [if_pos hm]
    exact sc_applyEntries_le _ _ (le_of_lt hm)
  · rw [if_neg hm]
    exact hsells d.1 st h

/-- C3: the number of simultaneously open positions after any backtest run
never exceeds `max_positions`, and the accepted-candidate loop leaves the
state untouched as soon as the open-position count has reached
`max_positions`, no matter how many candidates fired. -/
theorem c3_max_positions (days : List (List (ℕ × ℚ) × List (ℕ × ℚ)))
    (initial_capital : ℚ) :
    (SC.run_backtest days initial_capital).positions.length ≤ SC.max_positions ∧
    (∀ (cands : List (ℕ × ℚ)) (st : SC.LState),
      SC.max_positions ≤ st.positions.length → SC.applyEntries cands st = st) := by
  constructor
  · rw [SC.run_backtest]
    have hfold : ∀ (ds : List (List (ℕ × ℚ) × List (ℕ × ℚ))) (st : SC.LState),
        st.positions.length ≤ SC.max_positions →
        (ds.foldl SC.dayStep st).positions.length ≤ SC.max_positions := by
      intro ds
      induction ds with
      | nil => intro st h; exact h
      | cons d rest ih =>
        intro st h
        exact ih _ (sc_dayStep_le d st h)
    exact hfold days _ (by simp [SC.max_positions])
  · intro cands st h
    cases cands with
    | nil => rfl
    | cons c rest =>
      obtain ⟨sym, price⟩ := c
      rw [SC.applyEntries, if_pos h]

/-- Witness for `c3_max_positions`: the empty replay, plus a full ledger of
three open positions on which a further candidate is not accepted. -/
theorem c3_max_positions_witness :
    (SC.run_backtest [] 0).positions.length ≤ SC.max_positions ∧
    (SC.max_positions ≤ ([⟨0, 1, 100⟩, ⟨1, 1, 100⟩, ⟨2, 1, 100⟩] : List SC.Pos).length ∧
      SC.applyEntries [(5, 2)] ⟨0, [⟨0, 1, 100⟩, ⟨1, 1, 100⟩, ⟨2, 1, 100⟩], []⟩ =
        ⟨0, [⟨0, 1, 100⟩, ⟨1, 1, 100⟩, ⟨2, 1, 100⟩], []⟩) :=
  ⟨(c3_max_positions [] 0).1, by simp [SC.max_positions],
    (c3_max_positions [] 0).2 [(5, 2)] ⟨0, [⟨0, 1, 100⟩, ⟨1, 1, 100⟩, ⟨2, 1, 100⟩], []⟩
      (by simp [SC.max_positions])⟩

/-! ### C9: Sharpe ratio -/

theorem id_std_population_nil : ID.std_population [] = 0 := by
  simp [ID.std_population]

theorem id_std_population_singleton (x : ℝ) : ID.std_population [x] = 0 := by
  simp [ID.std_population, ID.meanR]

/-- C9: both reporters compute the Sharpe ratio as
`(annualized_return - risk_free_rate) / annualized_volatility` with a
252-period year (risk-free rate 3% in the pivot variant, 0 in the intraday
variant), and return 0 whenever the volatility is 0 or fewer than 2 return
samples exist.  In the pivot conjunct `std_daily` is the sample standard
deviation of the daily returns and `sqrt252` is `sqrt 252`; they enter the
formula only through the annualized-volatility product
`std_daily * sqrt252`, so they are universally quantified. -/
theorem c9_sharpe_ratio :
    (∀ (daily_pnl : List ℚ) (std_daily sqrt252 : ℚ),
      RB.sharpe_of_report daily_pnl std_daily sqrt252 =
        if std_daily * sqrt252 = 0 ∨ daily_pnl.length < 2 then 0
        else (RB.mean (daily_pnl.map (fun p => p / RB.initial_capital)) * 252
            - RB.risk_free_rate) / (std_daily * sqrt252)) ∧
    (∀ daily_returns : List ℝ,
      ID.sharpe_of_report daily_returns =
        if ID.std_population daily_returns = 0 ∨ daily_returns.length < 2 then 0
        else (ID.meanR daily_returns * 252 - 0) /
          (ID.std_population daily_returns * Real.sqrt 252)) := by
  constructor
  · intro pnl σ s
    simp only [RB.sharpe_of_report]
    by_cases hl : 1 < pnl.length
    · rw [if_pos ⟨hl, by norm_num [RB.initial_capital]⟩]
      by_cases hv : σ * s = 0
      · rw [if_neg (by rw [hv]; norm_num), if_pos (Or.inl hv)]
      · have hv100 : ¬ σ * s * 100 = 0 := by
          intro h
          rcases mul_eq_zero.mp h with h' | h'
          · exact hv h'
          · norm_num at h'
        rw [if_pos hv100, if_neg (by push_neg; exact ⟨hv, by omega⟩)]
        rw [RB.risk_free_rate]
        field_simp
    · rw [if_neg (by intro h; exact hl h.1), if_pos (Or.inr (by omega))]
  · intro l
    rw [ID.sharpe_of_report]
    by_cases hstd : ID.std_population l = 0
    · rw [if_neg (by rintro ⟨h1, h2⟩; rw [hstd] at h2; exact lt_irrefl 0 h2),
        if_pos (Or.inl hstd)]
    · have hpos : 0 < ID.std_population l :=
        lt_of_le_of_ne (Real.sqrt_nonneg _) (Ne.symm hstd)
      have hne : l ≠ [] := by
        intro h
        rw [h, id_std_population_nil] at hstd
        exact hstd rfl
      have hlen2 : ¬ (l.length < 2) := by
        intro hlt
        cases l with
        | nil => exact hne rfl
        | cons x xs =>
          cases xs with
          | nil =>
            rw [id_std_population_singleton] at hstd
            exact hstd rfl
          | cons y ys =>
            simp only [List.length_cons] at hlt
            omega
      rw [if_pos ⟨hne, hpos⟩, if_neg (by push_neg; exact ⟨hstd, by omega⟩)]
      have hs2 : Real.sqrt 252 ^ 2 = 252 := Real.sq_sqrt (by norm_num)
      have hsne : Real.sqrt 252 ≠ 0 := ne_of_gt (Real.sqrt_pos.mpr (by norm_num))
      field_simp
      linear_combination ID.meanR l * ID.std_population l * hs2

/-! ### C5: commission formula -/

/-- Counterexample for C5 as stated: the small-cap `run_backtest` debits a
buy by exactly `price * quantity` with no commission at all, so the cash
transition does not include the claimed charge
`max(trade_value * commission_rate, minimum_commission)` (which, at the
repository's configured rates, is 20 for this trade, not 0). -/
theorem c5_commission_counterexample :
    (SC.tryBuy 0 10 ⟨100000, [], []⟩).capital = 100000 - 10 * 800 ∧
    max ((10 * 800) * ID.commission_rate) ID.min_commission = 20 ∧
    (SC.tryBuy 0 10 ⟨100000, [], []⟩).capital ≠ 100000 - 10 * 800 - 20 := by
  refine ⟨?_, by norm_num [ID.commission_rate, ID.min_commission], ?_⟩ <;>
    norm_num [SC.tryBuy, pyInt]

/-- C5 (amended): only the intraday variant charges
`max(trade_value * commission_rate, minimum_commission)` plus sell-side
stamp duty, and its entry debit and exit credit each apply that cost
exactly once; the pivot variant charges `quantity * commission_per_share`
per trade; the small-cap variant charges no commission at all. -/
theorem c5_commission_amended :
    (∀ (price : ℚ) (q : ℤ),
      ID.calculate_trading_cost price q true =
        max (price * (q : ℚ) * ID.commission_rate) ID.min_commission ∧
      ID.calculate_trading_cost price q false =
        max (price * (q : ℚ) * ID.commission_rate) ID.min_commission
          + price * (q : ℚ) * ID.stamp_duty_rate) ∧
    (∀ (st : ID.DayState) (pos : ID.Position) (price : ℚ) (t : ℕ)
        (reason : ID.ExitReason) (looking : Bool),
      (ID.close_position st pos price t reason looking).capital =
        st.capital + price * (pos.quantity : ℚ)
          - ID.calculate_trading_cost price pos.quantity false) ∧
    (∀ (st : ID.DayState) (price : ℚ) (t : ℕ),
      (ID.try_enter st price t).capital = st.capital ∨
      (ID.try_enter st price t).capital = st.capital -
        (price * (ID.calculate_position_size st.capital price : ℚ)
          + ID.calculate_trading_cost price (ID.calculate_position_size st.capital price) true)) ∧
    (∀ (st : RB.State) (price : ℚ) (reason : RB.Reason),
      st.position = 0 →
      0 < pyInt (st.current_capital / (price + RB.commission_per_share)) →
      ∃ tr, (RB.execute_trade .buy price reason st).trades = st.trades ++ [tr] ∧
        tr.commission = (tr.quantity : ℚ) * RB.commission_per_share ∧
        (RB.execute_trade .buy price reason st).current_capital =
          st.current_capital - ((tr.quantity : ℚ) * price + tr.commission)) ∧
    (∀ (sym : ℕ) (price : ℚ) (st : SC.LState),
      (SC.tryBuy sym price st).capital = st.capital ∨
      (SC.tryBuy sym price st).capital = st.capital -
        price * ((pyInt (st.capital * (8/100) / price / 100) * 100 : ℤ) : ℚ)) := by
  refine ⟨?_, ?_, ?_, ?_, ?_⟩
  · intro price q
    constructor <;> simp [ID.calculate_trading_cost]
  · intro st pos price t reason looking
    simp [ID.close_position]
  · intro st price t
    rw [ID.try_enter]
    by_cases hq : (0 : ℤ) < ID.calculate_position_size st.capital price
    · rw [if_pos hq]
      by_cases hc : price * ((ID.calculate_position_size st.capital price : ℤ) : ℚ)
          + ID.calculate_trading_cost price (ID.calculate_position_size st.capital price) true
          ≤ st.capital
      · rw [if_pos hc]
        right
        rfl
      · rw [if_neg hc]
        left
        rfl
    · rw [if_neg hq]
      left
      rfl
  · intro st price reason h0 hq
    simp only [RB.execute_trade]
    rw [if_neg (by omega), if_pos h0, if_pos hq]
    exact ⟨_, rfl, rfl, by ring⟩
  · intro sym price st
    rw [SC.tryBuy]
    by_cases ha : st.positions.any (fun p => p.sym = sym)
    · rw [if_pos ha]
      left
      rfl
    · rw [if_neg ha]
      by_cases hq : (0 : ℤ) < pyInt (st.capital * (8/100) / price / 100) * 100
      · rw [if_pos hq]
        right
        rfl
      · rw [if_neg hq]
        left
        rfl

/-- Witness for `c5_commission_amended`: the pivot-variant conjunct at a
flat 100000-capital state buying at price 100 (999 affordable shares). -/
theorem c5_commission_amended_witness :
    (⟨100000, 0, 0, 0, []⟩ : RB.State).position = 0 ∧
    0 < pyInt ((⟨100000, 0, 0, 0, []⟩ : RB.State).current_capital
      / (100 + RB.commission_per_share)) ∧
    (∃ tr, (RB.execute_trade .buy 100 .breakoutBuy ⟨100000, 0, 0, 0, []⟩).trades =
        (⟨100000, 0, 0, 0, []⟩ : RB.State).trades ++ [tr] ∧
      tr.commission = (tr.quantity : ℚ) * RB.commission_per_share ∧
      (RB.execute_trade .buy 100 .breakoutBuy ⟨100000, 0, 0, 0, []⟩).current_capital =
        (⟨100000, 0, 0, 0, []⟩ : RB.State).current_capital
          - ((tr.quantity : ℚ) * 100 + tr.commission)) :=
  ⟨rfl, by norm_num [pyInt, RB.commission_per_share],
    (c5_commission_amended.2.2.2.1 ⟨100000, 0, 0, 0, []⟩ 100 .breakoutBuy rfl
      (by norm_num [pyInt, RB.commission_per_share]))⟩

/-! ### C8: end-of-backtest forced liquidation -/

theorem sc_counts_sellAt (sym : ℕ) (price : ℚ) (st : SC.LState)
    (h : st.positions.length + SC.sellCount st = SC.buyCount st) :
    (SC.sellAt sym price st).positions.length + SC.sellCount (SC.sellAt sym price st)
      = SC.buyCount (SC.sellAt sym price st) := by
  rw [SC.sellAt]
  cases hf : st.positions.find? (fun p => p.sym = sym) with
  | none => exact h
  | some pos =>
    have hm : pos ∈ st.positions := List.mem_of_find?_eq_some hf
    have hlen : (st.positions.erase pos).length + 1 = st.positions.length := by
      rw [List.length_erase_of_mem hm]
      have hne : st.positions.length ≠ 0 := by
        intro h0
        rw [List.length_eq_zero] at h0
        rw [h0] at hm
        simp at hm
      omega
    simp only [SC.sellCount, SC.buyCount, List.filter_append, List.length_append] at h ⊢
    simp only [List.filter_cons, List.filter_nil]
    simp
    omega

theorem sc_counts_tryBuy (sym : ℕ) (price : ℚ) (st : SC.LState)
    (h : st.positions.length + SC.sellCount st = SC.buyCount st) :
    (SC.tryBuy sym price st).positions.length + SC.sellCount (SC.tryBuy sym price st)
      = SC.buyCount (SC.tryBuy sym price st) := by
  rw [SC.tryBuy]
  by_cases ha : st.positions.any (fun p => p.sym = sym)
  · rw [if_pos ha]
    exact h
  · rw [if_neg ha]
    by_cases hq : (0 : ℤ) < pyInt (st.capital * (8/100) / price / 100) * 100
    · rw [if_pos hq]
      simp only [SC.sellCount, SC.buyCount, List.filter_append, List.length_append] at h ⊢
      simp only [List.filter_cons, List.filter_nil]
      simp
      omega
    · rw [if_neg hq]
      exact h

theorem sc_counts_run (days : List (List (ℕ × ℚ) × List (ℕ × ℚ))) (init : ℚ) :
    (SC.run_backtest days init).positions.length + SC.sellCount (SC.run_backtest days init)
      = SC.buyCount (SC.run_backtest days init) := by
  rw [SC.run_backtest]
  have hsells : ∀ (sells : List (ℕ × ℚ)) (s : SC.LState),
      s.positions.length + SC.sellCount s = SC.buyCount s →
      (sells.foldl (fun s e => SC.sellAt e.1 e.2 s) s).positions.length
        + SC.sellCount (sells.foldl (fun s e => SC.sellAt e.1 e.2 s) s)
        = SC.buyCount (sells.foldl (fun s e => SC.sellAt e.1 e.2 s) s) := by
    intro sells
    induction sells with
    | nil => intro s hs; exact hs
    | cons e rest ih =>
      intro s hs
      rw [List.foldl_cons]
      exact ih _ (sc_counts_sellAt e.1 e.2 s hs)
  have hentries : ∀ (cands : List (ℕ × ℚ)) (s : SC.LState),
      s.positions.length + SC.sellCount s = SC.buyCount s →
      (SC.applyEntries cands s).positions.length + SC.sellCount (SC.applyEntries cands s)
        = SC.buyCount (SC.applyEntries cands s) := by
    intro cands
    induction cands with
    | nil => intro s hs; exact hs
    | cons c rest ih =>
      intro s hs
      obtain ⟨sym, price⟩ := c
      rw [SC.applyEntries]
      by_cases hm : SC.max_positions ≤ s.positions.length
      · rw [if_pos hm]; exact hs
      · rw [if_neg hm]; exact ih _ (sc_counts_tryBuy sym price s hs)
  have hday : ∀ (d : List (ℕ × ℚ) × List (ℕ × ℚ)) (s : SC.LState),
      s.positions.length + SC.sellCount s = SC.buyCount s →
      (SC.dayStep s d).positions.length + SC.sellCount (SC.dayStep s d)
        = SC.buyCount (SC.dayStep s d) := by
    intro d s hs
    rw [SC.dayStep, SC.dayEntries]
    by_cases hm : ((d.1.foldl (fun s e => SC.sellAt e.1 e.2 s) s).positions.length < SC.max_positions)
    · rw [if_pos hm]
      exact hentries _ _ (hsells d.1 s hs)
    · rw [if_neg hm]
      exact hsells d.1 s hs
  have hfold : ∀ (ds : List (List (ℕ × ℚ) × List (ℕ × ℚ))) (s : SC.LState),
      s.positions.length + SC.sellCount s = SC.buyCount s →
      (ds.foldl SC.dayStep s).positions.length + SC.sellCount (ds.foldl SC.dayStep s)
        = SC.buyCount (ds.foldl SC.dayStep s) := by
    intro ds
    induction ds with
    | nil => intro s hs; exact hs
    | cons d rest ih =>
      intro s hs
      rw [List.foldl_cons]
      exact ih _ (hday d s hs)
  exact hfold days _ (by simp [SC.sellCount, SC.buyCount])

/-- C8 (amended): in the pivot variant, `run_backtest` records a forced
liquidation trade (reason `强制平仓`) at the last price if and only if a
position is still open at the end of the replay, and an already-flat state
is left untouched; in the small-cap variant no end-of-backtest trade
exists at all — still-open positions are only marked to market into the
final value (`final_value = cash + mark-to-market`), so the recorded exit
trades always number exactly the recorded entries minus the positions
still open. -/
theorem c8_forced_liquidation_amended :
    (∀ (st : RB.State) (lp : ℚ),
      (st.position ≠ 0 →
        ∃ tr, (RB.finalize lp st).trades = st.trades ++ [tr] ∧
          tr.reason = RB.Reason.forcedLiquidation) ∧
      (st.position = 0 → RB.finalize lp st = st)) ∧
    (∀ (days : List (List (ℕ × ℚ) × List (ℕ × ℚ))) (init : ℚ),
      (SC.run_backtest days init).positions.length
        + SC.sellCount (SC.run_backtest days init)
        = SC.buyCount (SC.run_backtest days init)) ∧
    (∀ (st : SC.LState) (prices : ℕ → ℚ),
      SC.final_value st prices = st.capital + SC.mtm st prices) := by
  refine ⟨?_, sc_counts_run, fun st prices => rfl⟩
  intro st lp
  constructor
  · intro hne
    rw [RB.finalize, if_pos hne]
    by_cases hpos : 0 < st.position
    · rw [if_pos hpos]
      simp only [RB.execute_trade]
      rw [if_pos hpos]
      exact ⟨_, rfl, rfl⟩
    · rw [if_neg hpos]
      have hlt : st.position < 0 := by omega
      simp only [RB.execute_trade]
      rw [if_pos hlt]
      exact ⟨_, rfl, rfl⟩
  · intro h0
    rw [RB.finalize, if_neg (by omega)]

/-- Witness for `c8_forced_liquidation_amended`: a state long 100 shares is
force-closed with the dedicated reason; a flat state is left untouched. -/
theorem c8_forced_liquidation_amended_witness :
    ((⟨1000, 0, 100, 10, []⟩ : RB.State).position ≠ 0 ∧
      ∃ tr, (RB.finalize 12 ⟨1000, 0, 100, 10, []⟩).trades =
          (⟨1000, 0, 100, 10, []⟩ : RB.State).trades ++ [tr] ∧
        tr.reason = RB.Reason.forcedLiquidation) ∧
    ((⟨1000, 0, 0, 0, []⟩ : RB.State).position = 0 ∧
      RB.finalize 12 ⟨1000, 0, 0, 0, []⟩ = ⟨1000, 0, 0, 0, []⟩) :=
  ⟨⟨by norm_num, (c8_forced_liquidation_amended.1 ⟨1000, 0, 100, 10, []⟩ 12).1 (by norm_num)⟩,
    ⟨rfl, (c8_forced_liquidation_amended.1 ⟨1000, 0, 0, 0, []⟩ 12).2 rfl⟩⟩

/-- Counterexample for C8 as stated: a small-cap replay that ends with an
open position records no closing trade at all (no `SELL` is ever appended),
so no forced exit with an end-of-backtest reason exists. -/
theorem c8_forced_liquidation_counterexample :
    (SC.run_backtest [([], [(1, 20)])] 50000).positions ≠ [] ∧
    (SC.run_backtest [([], [(1, 20)])] 50000).trades.filter
      (fun t => decide (t.action = SC.TAction.sell)) = [] := by
  constructor <;>
    norm_num [SC.run_backtest, SC.dayStep, SC.dayEntries, SC.applyEntries, SC.tryBuy,
      SC.sellAt, SC.max_positions, pyInt, List.filter_cons, List.filter_nil]
  decide

/-! ### C1: equity reconciliation -/

theorem sc_ledger_sellAt (sym : ℕ) (price : ℚ) (st : SC.LState) :
    (SC.sellAt sym price st).capital + SC.bookValue (SC.sellAt sym price st)
      - SC.realized (SC.sellAt sym price st)
    = st.capital + SC.bookValue st - SC.realized st := by
  rw [SC.sellAt]
  cases hf : st.positions.find? (fun p => p.sym = sym) with
  | none => rfl
  | some pos =>
    have hm : pos ∈ st.positions := List.mem_of_find?_eq_some hf
    have hperm : List.Perm st.positions (pos :: st.positions.erase pos) :=
      List.perm_cons_erase hm
    have hsum : (st.positions.map (fun p => p.entry_price * (p.quantity : ℚ))).sum
        = pos.entry_price * (pos.quantity : ℚ)
          + ((st.positions.erase pos).map (fun p => p.entry_price * (p.quantity : ℚ))).sum := by
      rw [List.Perm.sum_eq (hperm.map (fun p => p.entry_price * (p.quantity : ℚ)))]
      simp
    simp only [SC.bookValue, SC.realized, List.map_append, List.sum_append,
      List.map_cons, List.sum_cons, List.map_nil, List.sum_nil]
    linear_combination (-1 : ℚ) * hsum

theorem sc_ledger_tryBuy (sym : ℕ) (price : ℚ) (st : SC.LState) :
    (SC.tryBuy sym price st).capital + SC.bookValue (SC.tryBuy sym price st)
      - SC.realized (SC.tryBuy sym price st)
    = st.capital + SC.bookValue st - SC.realized st := by
  rw [SC.tryBuy]
  by_cases ha : st.positions.any (fun p => p.sym = sym)
  · rw [if_pos ha]
  · rw [if_neg ha]
    by_cases hq : (0 : ℤ) < pyInt (st.capital * (8/100) / price / 100) * 100
    · rw [if_pos hq]
      simp only [SC.bookValue, SC.realized, List.map_append, List.sum_append,
        List.map_cons, List.sum_cons, List.map_nil, List.sum_nil]
      ring
    · rw [if_neg hq]

theorem sc_ledger_run (days : List (List (ℕ × ℚ) × List (ℕ × ℚ))) (init : ℚ) :
    (SC.run_backtest days init).capital + SC.bookValue (SC.run_backtest days init)
      = init + SC.realized (SC.run_backtest days init) := by
  rw [SC.run_backtest]
  have key : ∀ (ds : List (List (ℕ × ℚ) × List (ℕ × ℚ))) (st : SC.LState),
      (ds.foldl SC.dayStep st).capital + SC.bookValue (ds.foldl SC.dayStep st)
        - SC.realized (ds.foldl SC.dayStep st)
      = st.capital + SC.bookValue st - SC.realized st := by
    have hsells : ∀ (sells : List (ℕ × ℚ)) (s : SC.LState),
        ((sells.foldl (fun s e => SC.sellAt e.1 e.2 s) s).capital
          + SC.bookValue (sells.foldl (fun s e => SC.sellAt e.1 e.2 s) s)
          - SC.realized (sells.foldl (fun s e => SC.sellAt e.1 e.2 s) s))
        = s.capital + SC.bookValue s - SC.realized s := by
      intro sells
      induction sells with
      | nil => intro s; rfl
      | cons e rest ih =>
        intro s
        rw [List.foldl_cons]
        rw [ih (SC.sellAt e.1 e.2 s)]
        exact sc_ledger_sellAt e.1 e.2 s
    have hentries : ∀ (cands : List (ℕ × ℚ)) (s : SC.LState),
        ((SC.applyEntries cands s).capital + SC.bookValue (SC.applyEntries cands s)
          - SC.realized (SC.applyEntries cands s))
        = s.capital + SC.bookValue s - SC.realized s := by
      intro cands
      induction cands with
      | nil => intro s; rfl
      | cons c rest ih =>
        intro s
        obtain ⟨sym, price⟩ := c
        rw [SC.applyEntries]
        by_cases hm : SC.max_positions ≤ s.positions.length
        · rw [if_pos hm]
        · rw [if_neg hm]
          rw [ih (SC.tryBuy sym price s)]
          exact sc_ledger_tryBuy sym price s
    have hday : ∀ (d : List (ℕ × ℚ) × List (ℕ × ℚ)) (s : SC.LState),
        ((SC.dayStep s d).capital + SC.bookValue (SC.dayStep s d)
          - SC.realized (SC.dayStep s d))
        = s.capital + SC.bookValue s - SC.realized s := by
      intro d s
      rw [SC.dayStep, SC.dayEntries]
      by_cases hm : ((d.1.foldl (fun s e => SC.sellAt e.1 e.2 s) s).positions.length
          < SC.max_positions)
      · rw [if_pos hm, hentries _ _, hsells d.1 s]
      · rw [if_neg hm, hsells d.1 s]
    intro ds
    induction ds with
    | nil => intro s; rfl
    | cons d rest ih =>
      intro s
      rw [List.foldl_cons, ih (SC.dayStep s d), hday d s]
  have h := key days ⟨init, [], []⟩
  simp only [SC.bookValue, SC.realized, List.map_nil, List.sum_nil] at h ⊢
  linarith

theorem sc_mtm_split (l : List SC.Pos) (prices : ℕ → ℚ) :
    (l.map (fun p => prices p.sym * (p.quantity : ℚ))).sum
      = (l.map (fun p => (prices p.sym - p.entry_price) * (p.quantity : ℚ))).sum
        + (l.map (fun p => p.entry_price * (p.quantity : ℚ))).sum := by
  induction l with
  | nil => simp
  | cons p rest ih =>
    simp only [List.map_cons, List.sum_cons]
    rw [ih]
    ring

/-- C1 (amended): in the small-cap variant, at every period boundary,
`cash + Σ mark-to-market(open) = initial_capital + Σ realized pnl(closed)
+ Σ unrealized pnl(open)` — the unrealized term the original claim omits —
and the variant charges no commission; in the pivot variant a full
open-then-close long round trip changes cash by exactly the gross pnl
minus both commissions, i.e. by the recorded net pnl (which absorbs the
exit commission) minus the entry commission, so money is created or
destroyed only through commission debits. -/
theorem c1_equity_amended :
    (∀ (days : List (List (ℕ × ℚ) × List (ℕ × ℚ))) (init : ℚ) (prices : ℕ → ℚ),
      (SC.run_backtest days init).capital + SC.mtm (SC.run_backtest days init) prices
        = init + SC.realized (SC.run_backtest days init)
          + SC.unrealized (SC.run_backtest days init) prices) ∧
    (∀ (st : RB.State) (pe px : ℚ) (r1 r2 : RB.Reason),
      st.position = 0 →
      0 < pyInt (st.current_capital / (pe + RB.commission_per_share)) →
      ∃ te tx,
        (RB.execute_trade .sell px r2 (RB.execute_trade .buy pe r1 st)).trades
          = st.trades ++ [te, tx] ∧
        tx.pnl = (px - pe) * (te.quantity : ℚ)
          - (te.quantity : ℚ) * RB.commission_per_share ∧
        te.commission = (te.quantity : ℚ) * RB.commission_per_share ∧
        (RB.execute_trade .sell px r2 (RB.execute_trade .buy pe r1 st)).current_capital
          = st.current_capital + (px - pe) * (te.quantity : ℚ)
            - 2 * ((te.quantity : ℚ) * RB.commission_per_share) ∧
        (RB.execute_trade .sell px r2 (RB.execute_trade .buy pe r1 st)).current_capital
          = st.current_capital + tx.pnl - te.commission) := by
  constructor
  · intro days init prices
    rw [SC.mtm, SC.unrealized, sc_mtm_split]
    have h := sc_ledger_run days init
    rw [SC.bookValue] at h
    linarith
  · intro st pe px r1 r2 h0 hq
    set q : ℤ := pyInt (st.current_capital / (pe + RB.commission_per_share)) with hqdef
    have hbuy : RB.execute_trade .buy pe r1 st =
        { current_capital := st.current_capital -
            ((q : ℚ) * pe + (q : ℚ) * RB.commission_per_share)
          total_commission := st.total_commission + (q : ℚ) * RB.commission_per_share
          position := q
          position_price := pe
          trades := st.trades ++
            [⟨.buy, pe, q, (q : ℚ) * pe, r1, 0, 0, (q : ℚ) * RB.commission_per_share⟩] } := by
      simp only [RB.execute_trade]
      rw [if_neg (by omega), if_pos h0, if_pos hq]
    rw [hbuy]
    dsimp only [RB.execute_trade]
    rw [if_pos hq]
    refine ⟨⟨.buy, pe, q, (q : ℚ) * pe, r1, 0, 0, (q : ℚ) * RB.commission_per_share⟩,
      ⟨.sell, px, q, (q : ℚ) * px, r2,
        (px - pe) * (q : ℚ) - (q : ℚ) * RB.commission_per_share,
        ((px - pe) * (q : ℚ) - (q : ℚ) * RB.commission_per_share) / (pe * (q : ℚ)) * 100,
        (q : ℚ) * RB.commission_per_share⟩, ?_, ?_, ?_, ?_, ?_⟩
    · dsimp only
      rw [List.append_assoc]
      rfl
    · dsimp only
    · dsimp only
    · dsimp only
      ring
    · dsimp only
      ring

/-- Witness for `c1_equity_amended`: the pivot-variant round trip from a
flat 100000-capital state, entering at 100 (999 shares) and exiting at
110. -/
theorem c1_equity_amended_witness :
    (⟨100000, 0, 0, 0, []⟩ : RB.State).position = 0 ∧
    0 < pyInt ((⟨100000, 0, 0, 0, []⟩ : RB.State).current_capital
      / (100 + RB.commission_per_share)) ∧
    (∃ te tx,
      (RB.execute_trade .sell 110 .stopHit
          (RB.execute_trade .buy 100 .breakoutBuy ⟨100000, 0, 0, 0, []⟩)).trades
        = (⟨100000, 0, 0, 0, []⟩ : RB.State).trades ++ [te, tx] ∧
      tx.pnl = (110 - 100) * (te.quantity : ℚ)
        - (te.quantity : ℚ) * RB.commission_per_share ∧
      te.commission = (te.quantity : ℚ) * RB.commission_per_share ∧
      (RB.execute_trade .sell 110 .stopHit
          (RB.execute_trade .buy 100 .breakoutBuy ⟨100000, 0, 0, 0, []⟩)).current_capital
        = (⟨100000, 0, 0, 0, []⟩ : RB.State).current_capital
          + (110 - 100) * (te.quantity : ℚ)
          - 2 * ((te.quantity : ℚ) * RB.commission_per_share) ∧
      (RB.execute_trade .sell 110 .stopHit
          (RB.execute_trade .buy 100 .breakoutBuy ⟨100000, 0, 0, 0, []⟩)).current_capital
        = (⟨100000, 0, 0, 0, []⟩ : RB.State).current_capital + tx.pnl - te.commission) :=
  ⟨rfl, by norm_num [pyInt, RB.commission_per_share],
    c1_equity_amended.2 ⟨100000, 0, 0, 0, []⟩ 100 110 .breakoutBuy .stopHit rfl
      (by norm_num [pyInt, RB.commission_per_share])⟩

/-- Counterexample for C1 as stated: after a small-cap buy of 800 shares
at 10 whose price then moves to 12, cash plus mark-to-market is 101600,
which is not the initial capital 100000 plus the (zero) realized pnl —
the invariant needs the unrealized term. -/
theorem c1_equity_counterexample :
    (SC.run_backtest [([], [(0, 10)])] 100000).capital
      + SC.mtm (SC.run_backtest [([], [(0, 10)])] 100000) (fun _ => 12)
    ≠ 100000 + SC.realized (SC.run_backtest [([], [(0, 10)])] 100000) := by
  norm_num [SC.run_backtest, SC.dayStep, SC.dayEntries, SC.applyEntries, SC.tryBuy,
    SC.sellAt, SC.mtm, SC.realized, SC.max_positions, pyInt]

/-! ### C2: exit precedence and the minimum-holding guard -/

/-- C2 (amended): in the small-cap variant the hard stop-loss is the first
check of `check_exit_signal` and wins unconditionally, and its stop-loss
and take-profit conditions can never hold on the same bar (for a positive
entry price); in the intraday variant take-profit and stop-loss are also
mutually exclusive, but while the minimum-holding-period guard is active
(holding time under 5 minutes, before the 15:45 forced close) the bar loop
performs **no** exit check at all — in particular the stop-loss is not
evaluated — and only the position's `hold_minutes` field changes. -/
theorem c2_exit_precedence_amended :
    (∀ c : SC.ExitCtx,
      c.current_price ≤ c.entry_price * (1 - SC.stop_loss_percent) →
      SC.check_exit_signal c = some SC.ExitReason.stopHit) ∧
    (∀ e p : ℚ, 0 < e →
      ¬ (p ≤ e * (1 - SC.stop_loss_percent) ∧ e * (1 + SC.take_profit_percent) ≤ p)) ∧
    (∀ profit : ℚ,
      ¬ (ID.take_profit_percent ≤ profit ∧ profit ≤ -ID.stop_loss_percent)) ∧
    (∀ (df : List ID.Bar) (st : ID.DayState) (i : ℕ) (bar : ID.Bar) (pos : ID.Position),
      df.get? i = some bar →
      st.broke = false →
      st.position = some pos →
      ID.market_open ≤ bar.time_min →
      bar.time_min < ID.force_close_time →
      (bar.time_min : ℤ) - (pos.entry_time_min : ℤ) < ID.min_hold_minutes →
      (ID.day_step df st i).daily_trades = st.daily_trades ∧
      (ID.day_step df st i).position =
        some { pos with hold_minutes := (bar.time_min : ℤ) - (pos.entry_time_min : ℤ) } ∧
      (ID.day_step df st i).capital = st.capital) := by
  refine ⟨?_, ?_, ?_, ?_⟩
  · intro c h
    simp only [SC.check_exit_signal]
    rw [if_pos h]
  · rintro e p he ⟨h1, h2⟩
    rw [SC.stop_loss_percent] at h1
    rw [SC.take_profit_percent] at h2
    nlinarith
  · rintro profit ⟨h1, h2⟩
    rw [ID.take_profit_percent] at h1
    rw [ID.stop_loss_percent] at h2
    linarith
  · intro df st i bar pos hget hb hpos hopen hforce hhold
    rw [ID.day_step, if_neg (by simp [hb]), hget]
    dsimp only
    rw [if_neg (not_not_intro ⟨hopen, by
      have : ID.force_close_time ≤ ID.market_close := by decide
      omega⟩)]
    rw [hpos]
    dsimp only
    rw [if_neg (by omega), if_pos hhold]
    exact ⟨rfl, rfl, rfl⟩

/-- Witness for `c2_exit_precedence_amended`: a bar at 10:00 with close 90
against an entry at 100 made at 9:58 — the stop-loss condition holds, but
two minutes into the holding period nothing is checked: no trade and an
unchanged capital. -/
theorem c2_exit_precedence_amended_witness :
    (([⟨600, 90, 1, 0, none, none⟩] : List ID.Bar).get? 0 =
        some ⟨600, 90, 1, 0, none, none⟩ ∧
      (⟨5000, some ⟨598, 100, 100, 25, 0, 0, 0⟩, false, false, false, []⟩ :
        ID.DayState).broke = false ∧
      (⟨5000, some ⟨598, 100, 100, 25, 0, 0, 0⟩, false, false, false, []⟩ :
        ID.DayState).position = some ⟨598, 100, 100, 25, 0, 0, 0⟩ ∧
      ID.market_open ≤ 600 ∧ (600 : ℕ) < ID.force_close_time ∧
      ((600 : ℕ) : ℤ) - ((598 : ℕ) : ℤ) < ID.min_hold_minutes) ∧
    ((ID.day_step [⟨600, 90, 1, 0, none, none⟩]
        ⟨5000, some ⟨598, 100, 100, 25, 0, 0, 0⟩, false, false, false, []⟩ 0).daily_trades =
      (⟨5000, some ⟨598, 100, 100, 25, 0, 0, 0⟩, false, false, false, []⟩ :
        ID.DayState).daily_trades ∧
    (ID.day_step [⟨600, 90, 1, 0, none, none⟩]
        ⟨5000, some ⟨598, 100, 100, 25, 0, 0, 0⟩, false, false, false, []⟩ 0).position =
      some { (⟨598, 100, 100, 25, 0, 0, 0⟩ : ID.Position) with
        hold_minutes := ((600 : ℕ) : ℤ) - ((598 : ℕ) : ℤ) } ∧
    (ID.day_step [⟨600, 90, 1, 0, none, none⟩]
        ⟨5000, some ⟨598, 100, 100, 25, 0, 0, 0⟩, false, false, false, []⟩ 0).capital =
      (⟨5000, some ⟨598, 100, 100, 25, 0, 0, 0⟩, false, false, false, []⟩ :
        ID.DayState).capital) :=
  ⟨⟨rfl, rfl, rfl, by decide, by decide, by decide⟩,
    c2_exit_precedence_amended.2.2.2 [⟨600, 90, 1, 0, none, none⟩]
      ⟨5000, some ⟨598, 100, 100, 25, 0, 0, 0⟩, false, false, false, []⟩ 0
      ⟨600, 90, 1, 0, none, none⟩ ⟨598, 100, 100, 25, 0, 0, 0⟩
      rfl rfl rfl (by decide) (by decide) (by decide)⟩

/-- Counterexample for C2 as stated: on the example day `exDfB` the entry
fills at 100 at 10:00 and the 10:02 bar closes at 95, so the stop-loss
condition (a 5% loss, beyond the 2% stop) holds on that processed bar, yet
the replay ends with no trade recorded (in particular no stop-loss exit)
and the position still open: the minimum-holding-period guard skipped the
stop-loss check. -/
theorem c2_exit_precedence_counterexample :
    ((95 : ℚ) / 100 - 1 ≤ -ID.stop_loss_percent) ∧
    (ID.simulate_trading_day ID.exDfB 100000).daily_trades = [] ∧
    (ID.simulate_trading_day ID.exDfB 100000).position =
      some ⟨600, 100, 900, 225, 0, 0, 2⟩ := by
  refine ⟨by norm_num [ID.stop_loss_percent], ?_, ?_⟩ <;>
    norm_num [ID.simulate_trading_day, ID.day_step, ID.close_position, ID.try_enter,
      ID.check_drop_signal, ID.check_reversal_signal, ID.calculate_position_size,
      ID.calculate_trading_cost, pyInt, pyFloorDiv, ID.exDfB, ID.dummyBar,
      ID.exEntryBar, ID.exCrashBarB, ID.market_open, ID.market_close,
      ID.force_close_time, ID.min_hold_minutes, ID.min_drop_percent,
      ID.min_volume_surge, ID.reversal_confirm_percent, ID.max_position_ratio,
      ID.commission_rate, ID.stamp_duty_rate, ID.min_commission,
      ID.stop_loss_percent, ID.take_profit_percent,
      List.range_succ, List.replicate]

/-! ### C10: a day ending before the forced-close time leaks the position -/

theorem id_close_invariant (s : ID.DayState) (pos : ID.Position) (price : ℚ) (t : ℕ)
    (reason : ID.ExitReason) (looking : Bool) :
    (ID.close_position s pos price t reason looking).capital
      - (((ID.close_position s pos price t reason looking).daily_trades.map
          (fun tr => tr.pnl)).sum)
    = s.capital + (pos.entry_price * (pos.quantity : ℚ) + pos.buy_cost)
      - ((s.daily_trades.map (fun tr => tr.pnl)).sum) := by
  dsimp only [ID.close_position]
  simp only [List.map_append, List.sum_append, List.map_cons, List.sum_cons,
    List.map_nil, List.sum_nil]
  ring

theorem id_step_invariant (df : List ID.Bar) (st : ID.DayState) (i : ℕ) :
    (ID.day_step df st i).capital
      + (match (ID.day_step df st i).position with
         | some p => p.entry_price * (p.quantity : ℚ) + p.buy_cost
         | none => 0)
      - (((ID.day_step df st i).daily_trades.map (fun tr => tr.pnl)).sum)
    = st.capital
      + (match st.position with
         | some p => p.entry_price * (p.quantity : ℚ) + p.buy_cost
         | none => 0)
      - ((st.daily_trades.map (fun tr => tr.pnl)).sum) := by
  rw [ID.day_step]
  by_cases hb : st.broke = true
  · rw [if_pos hb]
  · rw [if_neg hb]
    cases hget : df.get? i with
    | none => rfl
    | some bar =>
      dsimp only
      by_cases hsession : ¬ (ID.market_open ≤ bar.time_min ∧ bar.time_min ≤ ID.market_close)
      · rw [if_pos hsession]
      · rw [if_neg hsession]
        cases hpos : st.position with
        | some pos =>
          dsimp only
          by_cases hf : ID.force_close_time ≤ bar.time_min
          · rw [if_pos hf]
            dsimp only
            have h := id_close_invariant st pos bar.close bar.time_min .closeOut
              st.looking_for_drop
            dsimp only [ID.close_position] at h ⊢
            simp only [List.map_append, List.sum_append, List.map_cons, List.sum_cons,
              List.map_nil, List.sum_nil] at h ⊢
            linear_combination h
          · rw [if_neg hf]
            by_cases hh : (bar.time_min : ℤ) - (pos.entry_time_min : ℤ) < ID.min_hold_minutes
            · rw [if_pos hh]
            · rw [if_neg hh]
              by_cases htp : ID.take_profit_percent ≤ bar.close / pos.entry_price - 1
              · rw [if_pos htp]
                dsimp only [ID.close_position]
                simp only [List.map_append, List.sum_append, List.map_cons, List.sum_cons,
                  List.map_nil, List.sum_nil]
                ring
              · rw [if_neg htp]
                by_cases hsl : bar.close / pos.entry_price - 1 ≤ -ID.stop_loss_percent
                · rw [if_pos hsl]
                  dsimp only [ID.close_position]
                  simp only [List.map_append, List.sum_append, List.map_cons, List.sum_cons,
                    List.map_nil, List.sum_nil]
                  ring
                · rw [if_neg hsl]
        | none =>
          dsimp only
          by_cases hd : st.looking_for_drop = true ∧ ID.check_drop_signal df i = true
          · rw [if_pos hd]
            dsimp only
            by_cases hr : ID.check_reversal_signal df i = true
            · rw [if_pos ⟨rfl, hr⟩]
              rw [ID.try_enter]
              dsimp only
              by_cases hq : (0 : ℤ) < ID.calculate_position_size st.capital bar.close
              · rw [if_pos hq]
                by_cases hc : bar.close * ((ID.calculate_position_size st.capital bar.close : ℤ) : ℚ)
                    + ID.calculate_trading_cost bar.close
                        (ID.calculate_position_size st.capital bar.close) true ≤ st.capital
                · rw [if_pos hc]
                  dsimp only
                  ring
                · rw [if_neg hc]
              · rw [if_neg hq]
            · rw [if_neg (fun hcon => hr hcon.2)]
          · rw [if_neg hd]
            try dsimp only
            by_cases hr : st.drop_detected = true ∧ ID.check_reversal_signal df i = true
            · rw [if_pos hr]
              rw [ID.try_enter]
              dsimp only
              by_cases hq : (0 : ℤ) < ID.calculate_position_size st.capital bar.close
              · rw [if_pos hq]
                by_cases hc : bar.close * ((ID.calculate_position_size st.capital bar.close : ℤ) : ℚ)
                    + ID.calculate_trading_cost bar.close
                        (ID.calculate_position_size st.capital bar.close) true ≤ st.capital
                · rw [if_pos hc]
                  dsimp only
                  ring
                · rw [if_neg hc]
                  rw [hpos]
              · rw [if_neg hq]
                rw [hpos]
            · rw [if_neg hr]
              rw [hpos]

theorem id_step_trades (df : List ID.Bar) (st : ID.DayState) (i : ℕ)
    (hlt : ∀ b ∈ df, b.time_min < ID.force_close_time) :
    ∀ tr ∈ (ID.day_step df st i).daily_trades,
      tr ∈ st.daily_trades ∨ tr.exit_reason ≠ ID.ExitReason.closeOut := by
  intro tr htr
  rw [ID.day_step] at htr
  by_cases hb : st.broke = true
  · rw [if_pos hb] at htr
    exact Or.inl htr
  · rw [if_neg hb] at htr
    cases hget : df.get? i with
    | none =>
      rw [hget] at htr
      exact Or.inl htr
    | some bar =>
      rw [hget] at htr
      dsimp only at htr
      have hbar : bar.time_min < ID.force_close_time := hlt bar (List.get?_mem hget)
      by_cases hsession : ¬ (ID.market_open ≤ bar.time_min ∧ bar.time_min ≤ ID.market_close)
      · rw [if_pos hsession] at htr
        exact Or.inl htr
      · rw [if_neg hsession] at htr
        cases hpos : st.position with
        | some pos =>
          rw [hpos] at htr
          dsimp only at htr
          rw [if_neg (by omega)] at htr
          by_cases hh : (bar.time_min : ℤ) - (pos.entry_time_min : ℤ) < ID.min_hold_minutes
          · rw [if_pos hh] at htr
            exact Or.inl htr
          · rw [if_neg hh] at htr
            by_cases htp : ID.take_profit_percent ≤ bar.close / pos.entry_price - 1
            · rw [if_pos htp] at htr
              dsimp only [ID.close_position] at htr
              rcases List.mem_append.mp htr with h | h
              · exact Or.inl h
              · right
                simp only [List.mem_singleton] at h
                rw [h]
                intro hcontra
                cases hcontra
            · rw [if_neg htp] at htr
              by_cases hsl : bar.close / pos.entry_price - 1 ≤ -ID.stop_loss_percent
              · rw [if_pos hsl] at htr
                dsimp only [ID.close_position] at htr
                rcases List.mem_append.mp htr with h | h
                · exact Or.inl h
                · right
                  simp only [List.mem_singleton] at h
                  rw [h]
                  intro hcontra
                  cases hcontra
              · rw [if_neg hsl] at htr
                exact Or.inl htr
        | none =>
          rw [hpos] at htr
          dsimp only at htr
          by_cases hd : st.looking_for_drop = true ∧ ID.check_drop_signal df i = true
          · rw [if_pos hd] at htr
            dsimp only at htr
            by_cases hr : ID.check_reversal_signal df i = true
            · rw [if_pos ⟨rfl, hr⟩] at htr
              rw [ID.try_enter] at htr
              dsimp only at htr
              by_cases hq : (0 : ℤ) < ID.calculate_position_size st.capital bar.close
              · rw [if_pos hq] at htr
                by_cases hc : bar.close * ((ID.calculate_position_size st.capital bar.close : ℤ) : ℚ)
                    + ID.calculate_trading_cost bar.close
                        (ID.calculate_position_size st.capital bar.close) true ≤ st.capital
                · rw [if_pos hc] at htr
                  exact Or.inl htr
                · rw [if_neg hc] at htr
                  exact Or.inl htr
              · rw [if_neg hq] at htr
                exact Or.inl htr
            · rw [if_neg (fun hcon => hr hcon.2)] at htr
              exact Or.inl htr
          · rw [if_neg hd] at htr
            try dsimp only at htr
            by_cases hr : st.drop_detected = true ∧ ID.check_reversal_signal df i = true
            · rw [if_pos hr] at htr
              rw [ID.try_enter] at htr
              dsimp only at htr
              by_cases hq : (0 : ℤ) < ID.calculate_position_size st.capital bar.close
              · rw [if_pos hq] at htr
                by_cases hc : bar.close * ((ID.calculate_position_size st.capital bar.close : ℤ) : ℚ)
                    + ID.calculate_trading_cost bar.close
                        (ID.calculate_position_size st.capital bar.close) true ≤ st.capital
                · rw [if_pos hc] at htr
                  exact Or.inl htr
                · rw [if_neg hc] at htr
                  exact Or.inl htr
              · rw [if_neg hq] at htr
                exact Or.inl htr
            · rw [if_neg hr] at htr
              exact Or.inl htr

/-- C10: on a trading day whose every bar lies before the 15:45 forced-close
time, if the bar loop of `simulate_trading_day` ends with a position still
open, then the day's final capital equals the starting capital plus the pnl
of the recorded trades **minus the open position's whole entry cost**
(`entry_price * quantity + buy_cost`), and no forced-close trade was
recorded: the entry debit is never credited back and the position is not
carried over (each day starts flat), so the capital decrease is permanent. -/
theorem c10_position_leak (df : List ID.Bar) (cap0 : ℚ) (p : ID.Position)
    (hlt : ∀ b ∈ df, b.time_min < ID.force_close_time)
    (hopen : (ID.simulate_trading_day df cap0).position = some p) :
    (ID.simulate_trading_day df cap0).capital
      = cap0 + (((ID.simulate_trading_day df cap0).daily_trades.map (fun tr => tr.pnl)).sum)
        - (p.entry_price * (p.quantity : ℚ) + p.buy_cost) ∧
    ∀ tr ∈ (ID.simulate_trading_day df cap0).daily_trades,
      tr.exit_reason ≠ ID.ExitReason.closeOut := by
  have hfold : ∀ (l : List ℕ) (st : ID.DayState),
      (l.foldl (ID.day_step df) st).capital
        + (match (l.foldl (ID.day_step df) st).position with
           | some q => q.entry_price * (q.quantity : ℚ) + q.buy_cost
           | none => 0)
        - (((l.foldl (ID.day_step df) st).daily_trades.map (fun tr => tr.pnl)).sum)
      = st.capital
        + (match st.position with
           | some q => q.entry_price * (q.quantity : ℚ) + q.buy_cost
           | none => 0)
        - ((st.daily_trades.map (fun tr => tr.pnl)).sum) := by
    intro l
    induction l with
    | nil => intro st; rfl
    | cons j rest ih =>
      intro st
      rw [List.foldl_cons, ih (ID.day_step df st j), id_step_invariant df st j]
  have htrades : ∀ (l : List ℕ) (st : ID.DayState),
      (∀ tr ∈ st.daily_trades, tr.exit_reason ≠ ID.ExitReason.closeOut) →
      ∀ tr ∈ (l.foldl (ID.day_step df) st).daily_trades,
        tr.exit_reason ≠ ID.ExitReason.closeOut := by
    intro l
    induction l with
    | nil => intro st h; exact h
    | cons j rest ih =>
      intro st h
      rw [List.foldl_cons]
      apply ih
      intro tr htr
      rcases id_step_trades df st j hlt tr htr with hmem | hne
      · exact h tr hmem
      · exact hne
  constructor
  · have h := hfold (List.range df.length) ⟨cap0, none, true, false, false, []⟩
    rw [ID.simulate_trading_day] at hopen ⊢
    rw [hopen] at h
    dsimp only at h
    simp only [List.map_nil, List.sum_nil] at h
    linear_combination h
  · rw [ID.simulate_trading_day]
    exact htrades (List.range df.length) ⟨cap0, none, true, false, false, []⟩
      (by intro tr htr; cases htr)

/-- Witness for `c10_position_leak`: the example day `exDfA` (entry of 900
shares at 100 with buy cost 225 at 10:00, crash bar at 10:02, all bars
before 15:45) ends with the position still open, no trade recorded and the
entry cost of 90225 gone from the day's capital. -/
theorem c10_position_leak_witness :
    (∀ b ∈ ID.exDfA, b.time_min < ID.force_close_time) ∧
    (ID.simulate_trading_day ID.exDfA 100000).position =
      some ⟨600, 100, 900, 225, 0, 0, 2⟩ ∧
    ((ID.simulate_trading_day ID.exDfA 100000).capital
      = 100000
        + (((ID.simulate_trading_day ID.exDfA 100000).daily_trades.map
            (fun tr => tr.pnl)).sum)
        - ((100 : ℚ) * ((900 : ℤ) : ℚ) + 225) ∧
    ∀ tr ∈ (ID.simulate_trading_day ID.exDfA 100000).daily_trades,
      tr.exit_reason ≠ ID.ExitReason.closeOut) :=
  ⟨by decide,
    by
      norm_num [ID.simulate_trading_day, ID.day_step, ID.close_position, ID.try_enter,
        ID.check_drop_signal, ID.check_reversal_signal, ID.calculate_position_size,
        ID.calculate_trading_cost, pyInt, pyFloorDiv, ID.exDfA, ID.dummyBar,
        ID.exEntryBar, ID.exCrashBarA, ID.market_open, ID.market_close,
        ID.force_close_time, ID.min_hold_minutes, ID.min_drop_percent,
        ID.min_volume_surge, ID.reversal_confirm_percent, ID.max_position_ratio,
        ID.commission_rate, ID.stamp_duty_rate, ID.min_commission,
        ID.stop_loss_percent, ID.take_profit_percent, List.range_succ, List.replicate],
    c10_position_leak ID.exDfA 100000 ⟨600, 100, 900, 225, 0, 0, 2⟩ (by decide)
      (by
        norm_num [ID.simulate_trading_day, ID.day_step, ID.close_position, ID.try_enter,
          ID.check_drop_signal, ID.check_reversal_signal, ID.calculate_position_size,
          ID.calculate_trading_cost, pyInt, pyFloorDiv, ID.exDfA, ID.dummyBar,
          ID.exEntryBar, ID.exCrashBarA, ID.market_open, ID.market_close,
          ID.force_close_time, ID.min_hold_minutes, ID.min_drop_percent,
          ID.min_volume_surge, ID.reversal_confirm_percent, ID.max_position_ratio,
          ID.commission_rate, ID.stamp_duty_rate, ID.min_commission,
          ID.stop_loss_percent, ID.take_profit_percent, List.range_succ, List.replicate])⟩

/-! ### C7: position sizing safety -/

theorem id_sizing_whole_lots (capital price : ℚ) :
    (100 : ℤ) ∣ ID.calculate_position_size capital price := by
  simp only [ID.calculate_position_size]
  by_cases hepos : (0 : ℤ) < pyFloorDiv (pyInt (capital * ID.max_position_ratio / price)) 100 * 100
  · rw [if_pos hepos]
    by_cases hfits : price * ((pyFloorDiv (pyInt (capital * ID.max_position_ratio / price)) 100 * 100 : ℤ) : ℚ)
        + ID.calculate_trading_cost price
            (pyFloorDiv (pyInt (capital * ID.max_position_ratio / price)) 100 * 100) true ≤ capital
    · rw [if_pos hfits]
      exact ⟨_, mul_comm _ _⟩
    · rw [if_neg hfits]
      exact ⟨_, mul_comm _ _⟩
  · rw [if_neg hepos]
    exact dvd_zero 100

theorem id_sizing_affordable (capital price : ℚ) (hp : 0 < price)
    (hq : 0 < ID.calculate_position_size capital price) :
    price * ((ID.calculate_position_size capital price : ℤ) : ℚ)
      + ID.calculate_trading_cost price (ID.calculate_position_size capital price) true
    ≤ capital := by
  simp only [ID.calculate_position_size] at hq ⊢
  set e0 := pyInt (capital * ID.max_position_ratio / price) with he0
  set e := pyFloorDiv e0 100 * 100 with he
  by_cases hepos : (0 : ℤ) < e
  · rw [if_pos hepos] at hq ⊢
    set ce := ID.calculate_trading_cost price e true with hce
    by_cases hfits : price * (e : ℚ) + ce ≤ capital
    · rw [if_pos hfits] at hq ⊢
      exact hfits
    · rw [if_neg hfits] at hq ⊢
      set m0 := pyInt ((capital - ce) / price) with hm0
      set m := pyFloorDiv m0 100 * 100 with hm
      have hm_le_m0 : m ≤ m0 := pyFloorDiv_mul_le m0
      have hm0pos : (0 : ℤ) < m0 := lt_of_lt_of_le hq hm_le_m0
      have hxpos : 0 < (capital - ce) / price := pos_of_pyInt_pos hm0pos
      have hx : (m0 : ℚ) ≤ (capital - ce) / price := pyInt_le_of_nonneg (le_of_lt hxpos)
      have hpm : price * (m : ℚ) ≤ capital - ce := by
        have h1 : (m : ℚ) ≤ (m0 : ℚ) := by exact_mod_cast hm_le_m0
        have h2 : (m : ℚ) ≤ (capital - ce) / price := le_trans h1 hx
        calc price * (m : ℚ) ≤ price * ((capital - ce) / price) :=
              mul_le_mul_of_nonneg_left h2 (le_of_lt hp)
          _ = capital - ce := by field_simp
      have hm_lt_e : m < e := by
        push_neg at hfits
        have hlt : price * (m : ℚ) < price * (e : ℚ) := by linarith
        have := lt_of_mul_lt_mul_left hlt (le_of_lt hp)
        exact_mod_cast this
      have hcost : ID.calculate_trading_cost price m true ≤ ce := by
        rw [hce]
        exact trading_cost_buy_mono (le_of_lt hp) (le_of_lt hm_lt_e)
      linarith
  · rw [if_neg hepos] at hq
    exact absurd hq (by norm_num)

theorem id_try_enter_nonneg (s : ID.DayState) (price : ℚ) (t : ℕ)
    (h : 0 ≤ s.capital) : 0 ≤ (ID.try_enter s price t).capital := by
  rw [ID.try_enter]
  by_cases hq : (0 : ℤ) < ID.calculate_position_size s.capital price
  · rw [if_pos hq]
    by_cases hc : price * ((ID.calculate_position_size s.capital price : ℤ) : ℚ)
        + ID.calculate_trading_cost price (ID.calculate_position_size s.capital price) true
        ≤ s.capital
    · rw [if_pos hc]
      dsimp only
      linarith
    · rw [if_neg hc]
      exact h
  · rw [if_neg hq]
    exact h

theorem rb_entry_nonneg (capital tc : ℚ) (tr : List RB.Trade) (price : ℚ)
    (r : RB.Reason) (hp : 0 < price) (hcap : 0 ≤ capital) :
    0 ≤ (RB.execute_trade .buy price r ⟨capital, tc, 0, 0, tr⟩).current_capital := by
  simp only [RB.execute_trade]
  rw [if_neg (lt_irrefl (0 : ℤ)), if_pos trivial]
  by_cases hq : (0 : ℤ) < pyInt (capital / (price + RB.commission_per_share))
  · rw [if_pos hq]
    dsimp only
    have hpc : (0 : ℚ) < price + RB.commission_per_share := by
      rw [RB.commission_per_share]
      linarith
    have harg : (0 : ℚ) ≤ capital / (price + RB.commission_per_share) :=
      div_nonneg hcap (le_of_lt hpc)
    have hle : ((pyInt (capital / (price + RB.commission_per_share)) : ℤ) : ℚ)
        ≤ capital / (price + RB.commission_per_share) := pyInt_le_of_nonneg harg
    have : ((pyInt (capital / (price + RB.commission_per_share)) : ℤ) : ℚ)
        * (price + RB.commission_per_share) ≤ capital := by
      calc ((pyInt (capital / (price + RB.commission_per_share)) : ℤ) : ℚ)
            * (price + RB.commission_per_share)
          ≤ capital / (price + RB.commission_per_share) * (price + RB.commission_per_share) :=
            mul_le_mul_of_nonneg_right hle (le_of_lt hpc)
        _ = capital := by field_simp
    nlinarith [this]
  · rw [if_neg hq]
    exact hcap

theorem sc_tryBuy_nonneg (sym : ℕ) (price : ℚ) (st : SC.LState)
    (hp : 0 < price) (h : 0 ≤ st.capital) : 0 ≤ (SC.tryBuy sym price st).capital := by
  rw [SC.tryBuy]
  by_cases ha : st.positions.any (fun p => p.sym = sym)
  · rw [if_pos ha]
    exact h
  · rw [if_neg ha]
    by_cases hq : (0 : ℤ) < pyInt (st.capital * (8/100) / price / 100) * 100
    · rw [if_pos hq]
      dsimp only
      set a := pyInt (st.capital * (8/100) / price / 100) with ha
      have hq0 : (0 : ℤ) < a := by omega
      have hxpos : 0 < st.capital * (8/100) / price / 100 := pos_of_pyInt_pos hq0
      have hle : (a : ℚ) ≤ st.capital * (8/100) / price / 100 :=
        pyInt_le_of_nonneg (le_of_lt hxpos)
      have hmul : price * ((a : ℚ) * 100) ≤ st.capital * (8/100) := by
        have h1 : (a : ℚ) * 100 ≤ st.capital * (8/100) / price := by
          calc (a : ℚ) * 100 ≤ st.capital * (8/100) / price / 100 * 100 :=
                mul_le_mul_of_nonneg_right hle (by norm_num)
            _ = st.capital * (8/100) / price := by ring
        calc price * ((a : ℚ) * 100) ≤ price * (st.capital * (8/100) / price) :=
              mul_le_mul_of_nonneg_left h1 (le_of_lt hp)
          _ = st.capital * (8/100) := by
              field_simp
              ring
      push_cast
      push_cast at hmul
      linarith
    · rw [if_neg hq]
      exact h

/-- C7: in all three variants the position size is the variant's fixed
fraction of current cash floored to a whole lot (a 100-share lot in the HK
variants, a single share in the pivot variant, whose `int(capital /
(price + fee))` reserves the per-share fee), the sizing reserves the
estimated commission so that the entry debit never drives cash negative
(for the intraday sizer: whenever the computed size is positive, size
times price plus its buy cost fits in the current capital, including the
re-sizing branch), and a candidate whose resulting size is below one lot
is dropped silently with no trade recorded and no state change. -/
theorem c7_position_sizing (capital price tc : ℚ) (tr : List RB.Trade)
    (r : RB.Reason) (sym : ℕ) (stID : ID.DayState) (t : ℕ) (stSC : SC.LState)
    (hp : 0 < price) (hcap : 0 ≤ capital) (hIDcap : 0 ≤ stID.capital)
    (hSCcap : 0 ≤ stSC.capital) :
    ((100 : ℤ) ∣ ID.calculate_position_size capital price) ∧
    (0 < ID.calculate_position_size capital price →
      price * ((ID.calculate_position_size capital price : ℤ) : ℚ)
        + ID.calculate_trading_cost price (ID.calculate_position_size capital price) true
      ≤ capital) ∧
    (0 ≤ (ID.try_enter stID price t).capital) ∧
    (¬ (0 : ℤ) < ID.calculate_position_size stID.capital price →
      ID.try_enter stID price t = stID) ∧
    (0 ≤ (RB.execute_trade .buy price r ⟨capital, tc, 0, 0, tr⟩).current_capital) ∧
    (pyInt (capital / (price + RB.commission_per_share)) ≤ 0 →
      RB.execute_trade .buy price r ⟨capital, tc, 0, 0, tr⟩ = ⟨capital, tc, 0, 0, tr⟩) ∧
    ((100 : ℤ) ∣ pyInt (stSC.capital * (8/100) / price / 100) * 100) ∧
    (0 ≤ (SC.tryBuy sym price stSC).capital) ∧
    (pyInt (stSC.capital * (8/100) / price / 100) * 100 ≤ 0 →
      SC.tryBuy sym price stSC = stSC) := by
  refine ⟨id_sizing_whole_lots capital price,
    fun hq => id_sizing_affordable capital price hp hq,
    id_try_enter_nonneg stID price t hIDcap,
    ?_,
    rb_entry_nonneg capital tc tr price r hp hcap,
    ?_,
    ⟨_, mul_comm _ _⟩,
    sc_tryBuy_nonneg sym price stSC hp hSCcap,
    ?_⟩
  · intro hq
    rw [ID.try_enter, if_neg hq]
  · intro hle
    simp only [RB.execute_trade]
    rw [if_neg (lt_irrefl (0 : ℤ)), if_pos trivial, if_neg (not_lt.mpr hle)]
  · intro hle
    rw [SC.tryBuy]
    by_cases ha : stSC.positions.any (fun p => p.sym = sym)
    · rw [if_pos ha]
    · rw [if_neg ha, if_neg (not_lt.mpr hle)]

/-- Witness for `c7_position_sizing` at price 100 and 100000 of cash in
every variant. -/
theorem c7_position_sizing_witness :
    ((0 : ℚ) < 100 ∧ (0 : ℚ) ≤ 100000 ∧
      (0 : ℚ) ≤ (⟨100000, none, true, false, false, []⟩ : ID.DayState).capital ∧
      (0 : ℚ) ≤ (⟨100000, [], []⟩ : SC.LState).capital) ∧
    (((100 : ℤ) ∣ ID.calculate_position_size 100000 100) ∧
    (0 < ID.calculate_position_size 100000 100 →
      100 * ((ID.calculate_position_size 100000 100 : ℤ) : ℚ)
        + ID.calculate_trading_cost 100 (ID.calculate_position_size 100000 100) true
      ≤ 100000) ∧
    (0 ≤ (ID.try_enter ⟨100000, none, true, false, false, []⟩ 100 600).capital) ∧
    (¬ (0 : ℤ) < ID.calculate_position_size
        (⟨100000, none, true, false, false, []⟩ : ID.DayState).capital 100 →
      ID.try_enter ⟨100000, none, true, false, false, []⟩ 100 600 =
        ⟨100000, none, true, false, false, []⟩) ∧
    (0 ≤ (RB.execute_trade .buy 100 .breakoutBuy ⟨100000, 0, 0, 0, []⟩).current_capital) ∧
    (pyInt (100000 / (100 + RB.commission_per_share)) ≤ 0 →
      RB.execute_trade .buy 100 .breakoutBuy ⟨100000, 0, 0, 0, []⟩ = ⟨100000, 0, 0, 0, []⟩) ∧
    ((100 : ℤ) ∣ pyInt ((⟨100000, [], []⟩ : SC.LState).capital * (8/100) / 100 / 100) * 100) ∧
    (0 ≤ (SC.tryBuy 0 100 ⟨100000, [], []⟩).capital) ∧
    (pyInt ((⟨100000, [], []⟩ : SC.LState).capital * (8/100) / 100 / 100) * 100 ≤ 0 →
      SC.tryBuy 0 100 ⟨100000, [], []⟩ = ⟨100000, [], []⟩)) :=
  ⟨⟨by norm_num, by norm_num, by norm_num, by norm_num⟩,
    c7_position_sizing 100000 100 0 [] .breakoutBuy 0
      ⟨100000, none, true, false, false, []⟩ 600 ⟨100000, [], []⟩
      (by norm_num) (by norm_num) (by norm_num) (by norm_num)⟩

/-! ### C4: R-Breaker breakout levels -/

/-- C4: for all previous-period values `H`, `L`, `C` and coefficient `f1`,
`calculate_rbreaker_levels` returns breakout buy level `H + f1*(C-L)` and
breakout sell level `L - f1*(H-C)`; in particular for `H=10`, `L=8`, `C=9`
and `f1=0.35` it returns exactly 10.35 and 7.65. -/
theorem c4_rbreaker_levels (f1 f2 f3 f4 f5 H L C : ℚ) :
    (RB.calculate_rbreaker_levels f1 f2 f3 f4 f5 H L C).bbreak = H + f1 * (C - L) ∧
    (RB.calculate_rbreaker_levels f1 f2 f3 f4 f5 H L C).sbreak = L - f1 * (H - C) ∧
    (RB.calculate_rbreaker_levels (35/100) f2 f3 f4 f5 10 8 9).bbreak = 1035/100 ∧
    (RB.calculate_rbreaker_levels (35/100) f2 f3 f4 f5 10 8 9).sbreak = 765/100 := by
  refine ⟨rfl, rfl, ?_, ?_⟩ <;> norm_num [RB.calculate_rbreaker_levels]
